import Mathlib

/-!
# QskSkinManager and QskBoxNode

A shallow embedding of `src/controls/QskSkinManager.cpp` (factory map, plugin
scanner, skin manager) and of `src/nodes/QskBoxNode.cpp` (the composer of the
child nodes of a box).

* `QMap` is Qt's ordered map, kept as a key-sorted association list; iteration
  (`constBegin .. constEnd`) is iteration over that list, that is in key order,
  the order of `QString::operator<` on the UTF-16 code units of the keys.
* A `QskSkinFactory*` is an address (`Nat`); `nullptr` is `none`.  What the
  object behind the address answers to `skinNames()` is read from `Env`.
* Everything the code asks of Qt or of the file system (directory listings,
  plugin metadata, canonical paths, the system colour scheme, `toLower`) is a
  field of `Env`.
* `QskSkinManager::PrivateData` carries, next to its three C++ members, the two
  process-wide counters the code touches and a trace of the directories listed.
* The children of a `QskBoxNode` are kept in a table of role-tagged slots; the
  primitives of `QskSGNode` that read and write it follow the specification.
-/

namespace QskSkin

/-! ## QMap -/

/-- Qt `QMap< QString, T >` as an association list; well-formed maps are
strictly sorted by key, see `QMap.WF`. -/
abbrev QMap (α : Type) := List (String × α)

/-- The UTF-16 code units by which a `QString` stores a character: the code
point itself, or a surrogate pair for a code point beyond the basic plane. -/
def utf16Units (c : Char) : List Nat :=
  if c.toNat < 0x10000 then [c.toNat]
  else [0xD800 + (c.toNat - 0x10000) / 0x400, 0xDC00 + (c.toNat - 0x10000) % 0x400]

/-- The UTF-16 code units of a sequence of characters. -/
def unitsOf : List Char → List Nat
  | [] => []
  | c :: cs => utf16Units c ++ unitsOf cs

/-- Lexicographic comparison of two sequences of code units; a proper
beginning of a sequence is less than the sequence. -/
def unitsLess : List Nat → List Nat → Bool
  | _, [] => false
  | [], _ :: _ => true
  | a :: as, b :: bs => decide (a < b) || (decide (a = b) && unitsLess as bs)

/-- The order `operator<` of `QString` that sorts the keys of a `QMap`:
lexicographic comparison of the UTF-16 code units of the two strings. -/
def qstringLess (a b : String) : Bool := unitsLess (unitsOf a.data) (unitsOf b.data)

namespace QMap

/-- Lookup `QMap::find` / `constFind`: the value stored under `k`. -/
def find {α : Type} : QMap α → String → Option α
  | [], _ => none
  | (k', v) :: rest, k => if k' = k then some v else find rest k

/-- Method `QMap::contains`. -/
def contains {α : Type} (m : QMap α) (k : String) : Bool :=
  (find m k).isSome

/-- Method `QMap::insert`: the entry goes to its place in key order, an entry
with the same key is replaced. -/
def insert {α : Type} : QMap α → String → α → QMap α
  | [], k, v => [(k, v)]
  | (k', v') :: rest, k, v =>
    if qstringLess k k' then (k, v) :: (k', v') :: rest
    else if k = k' then (k, v) :: rest
    else (k', v') :: insert rest k v

/-- Assignment through an iterator or reference obtained for key `k`: the
value is overwritten in place. -/
def assign {α : Type} : QMap α → String → α → QMap α
  | [], _, _ => []
  | (k', v') :: rest, k, v =>
    if k' = k then (k', v) :: rest else (k', v') :: assign rest k v

/-- Method `QMap::erase` applied to the entry found under `k`. -/
def erase {α : Type} : QMap α → String → QMap α
  | [], _ => []
  | (k', v') :: rest, k => if k' = k then rest else (k', v') :: erase rest k

/-- The keys in iteration order. -/
def keys {α : Type} (m : QMap α) : List String := m.map Prod.fst

/-- The representation invariant of `QMap`: keys strictly ascending. -/
def WF {α : Type} (m : QMap α) : Prop :=
  m.Pairwise (fun x y => qstringLess x.1 y.1 = true)

end QMap

/-! ## External collaborators -/

/-- A `QskSkinFactory*`: the address of a factory object. -/
abbrev QskSkinFactory := Nat

/-- The enumeration `Qt::ColorScheme`. -/
inductive ColorScheme where
  | Unknown
  | Light
  | Dark
deriving DecidableEq, Repr

/-- One element of the `Skins` array of the plugin metadata. -/
structure SkinEntry where
  name : String
  scheme : String
deriving DecidableEq, Repr

/-- The part of `QPluginLoader::metaData()` read by `setPlugin`: the value of
`IID` and, from the `MetaData` object, `FactoryId` and `Skins`. -/
structure MetaData where
  iid : String
  factoryId : String
  skins : List SkinEntry
deriving DecidableEq, Repr

/-- Everything outside the translation unit that the code consults. -/
structure Env where
  /-- the string `QskSkinFactoryIID` -/
  interfaceId : String
  /-- result of `QPluginLoader::metaData()` for a file name -/
  metaData : String → MetaData
  /-- result of `qobject_cast< QskSkinFactory* >( QPluginLoader::instance() )` for a file name -/
  pluginFactory : String → Option QskSkinFactory
  /-- result of `QskSkinFactory::skinNames()` of the object at an address -/
  factorySkinNames : QskSkinFactory → List String
  /-- result of `QDir( path ).entryList( QDir::Files )` -/
  entryList : String → List String
  /-- result of `QDir( path ).absoluteFilePath( fileName )` -/
  absoluteFilePath : String → String → String
  /-- result of `QDir( path ).canonicalPath()` -/
  canonicalPath : String → String
  /-- the function `QString::toLower` -/
  toLower : String → String
  /-- result of `qGuiApp->styleHints()->colorScheme()` -/
  colorScheme : ColorScheme
  /-- whether `QT_VERSION >= QT_VERSION_CHECK( 6, 5, 0 )` -/
  qtAtLeast65 : Bool

/-- Whether the characters `t` start the characters `s`. -/
def startsWith : List Char → List Char → Bool
  | _, [] => true
  | [], _ :: _ => false
  | c :: s, d :: t => c == d && startsWith s t

/-- Whether `t` occurs in `s` starting at some position. -/
def occursIn : List Char → List Char → Bool
  | [], t => startsWith [] t
  | c :: s, t => startsWith (c :: s) t || occursIn s t

/-- Method `QString::contains( const QString& )`: substring test. -/
def qstringContains (s t : String) : Bool := occursIn s.data t.data

/-! ## FactoryLoader -/

/-- The anonymous-namespace class `FactoryLoader`: a `QPluginLoader` (its file
name) with the two members filled by `setPlugin`.  `addr` is the address of
the object, compared where the code compares `FactoryLoader*`. -/
structure FactoryLoader where
  addr : Nat
  fileName : String := ""
  m_factoryId : String := ""
  m_skinNames : List String := []
deriving DecidableEq, Repr

namespace FactoryLoader

/-- The scheme a metadata string stands for (lines 112-123). -/
def schemeOf (schemeString : String) : ColorScheme :=
  if schemeString = "Light" then ColorScheme.Light
  else if schemeString = "Dark" then ColorScheme.Dark
  else ColorScheme.Unknown

/-- The body of the loop over `skins` in `setPlugin` (lines 105-138). -/
def addSkin (env : Env) (l : FactoryLoader) (skin : SkinEntry) : FactoryLoader :=
  if env.qtAtLeast65 then
    if schemeOf skin.scheme = env.colorScheme then
      { l with m_skinNames := skin.name :: l.m_skinNames }
    else
      { l with m_skinNames := l.m_skinNames ++ [skin.name] }
  else
    { l with m_skinNames := l.m_skinNames ++ [skin.name] }

/-- Method `FactoryLoader::setPlugin`.  The argument `i` is the function-local
`static int i`; its new value is returned with the loader and the result. -/
def setPlugin (env : Env) (l : FactoryLoader) (fileName : String) (i : Nat) :
    Bool × FactoryLoader × Nat :=
  let l1 := { l with fileName := fileName }
  let pluginData := env.metaData fileName
  if pluginData.iid = env.interfaceId then
    let l2 := { l1 with m_factoryId := env.toLower pluginData.factoryId }
    if l2.m_factoryId = "fluent2factory" then
      (false, l2, i)
    else
      let l3 := if l2.m_factoryId.isEmpty then
        { l2 with m_factoryId := "skin_factory_" ++ toString i } else l2
      let i3 := if l2.m_factoryId.isEmpty then i + 1 else i
      let l4 := pluginData.skins.foldl (addSkin env) l3
      (!l4.m_skinNames.isEmpty, l4, i3)
  else
    (!l1.m_skinNames.isEmpty, l1, i)

/-- Method `FactoryLoader::factory`: the plugin is loaded and its root object cast. -/
def factory (env : Env) (l : FactoryLoader) : Option QskSkinFactory :=
  env.pluginFactory l.fileName

end FactoryLoader

/-! ## FactoryMap -/

/-- Class `FactoryMap::Data`: a record of the factory table. -/
structure Data where
  loader : Option FactoryLoader := none
  factory : Option QskSkinFactory := none
deriving DecidableEq, Repr

/-- The anonymous-namespace class `FactoryMap`. -/
structure FactoryMap where
  /-- factoryId -> data -/
  m_factoryMap : QMap Data := []
  /-- skinName -> factoryId -/
  m_skinMap : QMap String := []
  m_skinNames : List String := []
  m_isValid : Bool := false
deriving DecidableEq, Repr

namespace Data

/-- Method `Data::reset`: both fields of the record are nulled.  A factory
object is an address that outlives the records pointing to it, as a factory
with a parent does: the `delete` of a factory without a parent, which clears
the `QPointer` of every other record holding the same object, is left out. -/
def reset (_d : Data) : Data := { loader := none, factory := none }

/-- Lines 231-232 of `FactoryMap::factory`: a loader-backed record without a
factory gets the factory of its loader. -/
def resolve (env : Env) (d : Data) : Data :=
  match d.factory, d.loader with
  | none, some l => { d with factory := l.factory env }
  | _, _ => d

end Data

namespace FactoryMap

/-- Method `FactoryMap::reset`. -/
def reset (fm : FactoryMap) : FactoryMap :=
  { fm with m_skinNames := [], m_skinMap := [], m_factoryMap := [] }

/-- Method `FactoryMap::rebuild( factoryId, skinNames )`. -/
def rebuildNames (fm : FactoryMap) (factoryId : String) (skinNames : List String) :
    FactoryMap :=
  skinNames.foldl
    (fun acc name =>
      if QMap.contains acc.m_skinMap name then acc
      else
        { acc with
          m_skinMap := QMap.insert acc.m_skinMap name factoryId
          m_skinNames := acc.m_skinNames ++ [name] })
    fm

/-- The body of the first loop of `rebuild` (lines 320-323). -/
def rebuildManual (env : Env) (acc : FactoryMap) (entry : String × Data) : FactoryMap :=
  match entry.2.loader, entry.2.factory with
  | none, some f => acc.rebuildNames entry.1 (env.factorySkinNames f)
  | _, _ => acc

/-- The body of the second loop of `rebuild` (lines 329-331). -/
def rebuildLoader (acc : FactoryMap) (entry : String × Data) : FactoryMap :=
  match entry.2.loader with
  | some l => acc.rebuildNames entry.1 l.m_skinNames
  | none => acc

/-- Method `FactoryMap::rebuild()`. -/
def rebuild (env : Env) (fm : FactoryMap) : FactoryMap :=
  let fm0 := { fm with m_skinMap := [], m_skinNames := [] }
  let fm1 := fm.m_factoryMap.foldl (rebuildManual env) fm0
  let fm2 := fm.m_factoryMap.foldl rebuildLoader fm1
  { fm2 with m_isValid := true }

/-- The guard `if ( !m_isValid ) rebuild();`. -/
def ensureValid (env : Env) (fm : FactoryMap) : FactoryMap :=
  if fm.m_isValid then fm else fm.rebuild env

/-- Method `FactoryMap::factory( skinName )`: the factory returned and the map
afterwards. -/
def factory (env : Env) (fm : FactoryMap) (skinName : String) :
    Option QskSkinFactory × FactoryMap :=
  let fm1 := fm.ensureValid env
  match QMap.find fm1.m_skinMap skinName with
  | some factoryId =>
    match QMap.find fm1.m_factoryMap factoryId with
    | some data =>
      let data1 := data.resolve env
      (data1.factory,
        { fm1 with m_factoryMap := QMap.assign fm1.m_factoryMap factoryId data1 })
    | none => (none, fm1)
  | none => (none, fm1)

/-- Method `FactoryMap::skinNames()`: the list returned and the map afterwards (the
method casts `const` away to rebuild). -/
def skinNames (env : Env) (fm : FactoryMap) : List String × FactoryMap :=
  let fm1 := fm.ensureValid env
  (fm1.m_skinNames, fm1)

/-- Access `m_factoryMap[ factoryId ]`: the record under the id, default-constructed
when there is none. -/
def recordAt (fm : FactoryMap) (factoryId : String) : Data :=
  (QMap.find fm.m_factoryMap factoryId).getD {}

/-- Method `FactoryMap::insertFactory( FactoryLoader* )`. -/
def insertFactoryLoader (fm : FactoryMap) (loader : FactoryLoader) : FactoryMap :=
  let data := fm.recordAt loader.m_factoryId
  if data.loader.map (fun l => l.addr) ≠ some loader.addr then
    { fm with
      m_factoryMap :=
        QMap.insert fm.m_factoryMap loader.m_factoryId { data.reset with loader := some loader }
      m_skinMap := []
      m_isValid := false }
  else
    { fm with m_factoryMap := QMap.insert fm.m_factoryMap loader.m_factoryId data }

/-- Method `FactoryMap::insertFactory( factoryId, QskSkinFactory* )`. -/
def insertFactory (fm : FactoryMap) (factoryId : String) (factory : Option QskSkinFactory) :
    FactoryMap :=
  let data := fm.recordAt factoryId
  if data.factory ≠ factory then
    { fm with
      m_factoryMap := QMap.insert fm.m_factoryMap factoryId { data.reset with factory := factory }
      m_skinMap := []
      m_skinNames := []
      m_isValid := false }
  else
    { fm with m_factoryMap := QMap.insert fm.m_factoryMap factoryId data }

/-- Method `FactoryMap::removeFactory`.  The loop of lines 288-296 compares
`it.key()` of `m_skinMap`, a skin name, with the factory id. -/
def removeFactory (fm : FactoryMap) (factoryId : String) : FactoryMap :=
  if QMap.contains fm.m_factoryMap factoryId then
    let fm1 := { fm with m_factoryMap := QMap.erase fm.m_factoryMap factoryId }
    if fm1.m_isValid then
      if (QMap.keys fm1.m_skinMap).any (fun key => key = factoryId) then
        { fm1 with m_isValid := false, m_skinNames := [], m_skinMap := [] }
      else fm1
    else fm1
  else fm

/-- Method `FactoryMap::hasFactory`. -/
def hasFactory (fm : FactoryMap) (factoryId : String) : Bool :=
  QMap.contains fm.m_factoryMap factoryId

end FactoryMap

/-! ## QskSkinManager -/

/-- Class `QskSkinManager::PrivateData`, and with it the process-wide state the code
reads and writes: `dummyIds` is the `static int i` of `setPlugin`,
`allocated` the number of `FactoryLoader` objects created so far (the next
address), `scanned` the directories whose entries were listed, oldest first. -/
structure PrivateData where
  pluginPaths : List String := []
  factoryMap : FactoryMap := {}
  pluginsRegistered : Bool := false
  dummyIds : Nat := 0
  allocated : Nat := 0
  scanned : List String := []
deriving DecidableEq, Repr

namespace PrivateData

/-- The body of the loop of `registerPlugins` (lines 392-400); the first
component is the local `loader`. -/
def registerPluginsStep (env : Env) (path : String)
    (st : Option FactoryLoader × PrivateData) (fileName : String) :
    Option FactoryLoader × PrivateData :=
  let d := st.2
  let loader0 : FactoryLoader := st.1.getD { addr := d.allocated }
  let allocated := if st.1.isNone then d.allocated + 1 else d.allocated
  let r := loader0.setPlugin env (env.absoluteFilePath path fileName) d.dummyIds
  let loader1 := r.2.1
  let d1 := { d with allocated := allocated, dummyIds := r.2.2 }
  if r.1 && !d1.factoryMap.hasFactory loader1.m_factoryId then
    (none, { d1 with factoryMap := d1.factoryMap.insertFactoryLoader loader1 })
  else
    (some loader1, d1)

/-- Method `PrivateData::registerPlugins`. -/
def registerPlugins (env : Env) (d : PrivateData) (path : String) : PrivateData :=
  let d0 := { d with scanned := d.scanned ++ [path] }
  ((env.entryList path).foldl (registerPluginsStep env path) (none, d0)).2

/-- Method `PrivateData::ensurePlugins`. -/
def ensurePlugins (env : Env) (d : PrivateData) : PrivateData :=
  if d.pluginsRegistered then d
  else
    let d1 := d.pluginPaths.foldl (fun acc path => acc.registerPlugins env (path ++ "/skins")) d
    { d1 with pluginsRegistered := true }

end PrivateData

/-- Function `qskResolvedPath`. -/
def qskResolvedPath (env : Env) (path : String) : String := env.canonicalPath path

/-- Method `QskSkinManager::addPluginPath`.  The second test of line 433 is
`pluginPath.contains( pluginPath )`, a `QString` asked for itself. -/
def addPluginPath (env : Env) (d : PrivateData) (path : String) : PrivateData :=
  let pluginPath := qskResolvedPath env path
  if !pluginPath.isEmpty && !qstringContains pluginPath pluginPath then
    let d1 := { d with pluginPaths := d.pluginPaths ++ [pluginPath] }
    if d1.pluginsRegistered then d1.registerPlugins env pluginPath else d1
  else d

/-- Method `QskSkinManager::removePluginPath`. -/
def removePluginPath (env : Env) (d : PrivateData) (path : String) : PrivateData :=
  let pluginPath := qskResolvedPath env path
  if pluginPath ∈ d.pluginPaths then
    let d1 := { d with pluginPaths := d.pluginPaths.erase pluginPath }
    if d1.pluginsRegistered then
      { d1 with factoryMap := d1.factoryMap.reset, pluginsRegistered := false }
    else d1
  else d

/-- The body of the loop of `setPluginPaths` (lines 465-470) on the locals
`pathSet` and `pluginPaths`. -/
def setPluginPathsStep (env : Env) (st : List String × List String) (path : String) :
    List String × List String :=
  let pluginPath := qskResolvedPath env path
  if !pluginPath.isEmpty && !st.1.contains pluginPath then
    (pluginPath :: st.1, st.2 ++ [pluginPath])
  else st

/-- Method `QskSkinManager::setPluginPaths`. -/
def setPluginPaths (env : Env) (d : PrivateData) (paths : List String) : PrivateData :=
  let d0 := { d with pluginPaths := [] }
  let pluginPaths := (paths.foldl (setPluginPathsStep env) ([], [])).2
  if pluginPaths ≠ d0.pluginPaths then
    { d0 with
      pluginPaths := pluginPaths
      factoryMap := d0.factoryMap.reset
      pluginsRegistered := false }
  else d0

/-- Method `QskSkinManager::pluginPaths`. -/
def pluginPaths (d : PrivateData) : List String := d.pluginPaths

/-- Method `QskSkinManager::registerFactory`. -/
def registerFactory (env : Env) (d : PrivateData) (factoryId : String)
    (factory : Option QskSkinFactory) : PrivateData :=
  if factoryId.isEmpty || factory.isNone then d
  else { d with factoryMap := d.factoryMap.insertFactory (env.toLower factoryId) factory }

/-- Method `QskSkinManager::unregisterFactory`. -/
def unregisterFactory (env : Env) (d : PrivateData) (factoryId : String) : PrivateData :=
  if factoryId.isEmpty then d
  else
    let d1 := d.ensurePlugins env
    { d1 with factoryMap := d1.factoryMap.removeFactory (env.toLower factoryId) }

/-- Method `QskSkinManager::unregisterFactories`. -/
def unregisterFactories (d : PrivateData) : PrivateData :=
  { d with factoryMap := d.factoryMap.reset }

/-- Method `QskSkinManager::skinNames`. -/
def skinNames (env : Env) (d : PrivateData) : List String × PrivateData :=
  let d1 := d.ensurePlugins env
  let r := d1.factoryMap.skinNames env
  (r.1, { d1 with factoryMap := r.2 })

/-- Method `QskSkinManager::createSkin`.  The result `some (f, name)` stands for the
skin `f->createSkin( name )`, `none` for `nullptr` returned without a call of
a factory. -/
def createSkin (env : Env) (d : PrivateData) (skinName : String) :
    Option (QskSkinFactory × String) × PrivateData :=
  let d1 := d.ensurePlugins env
  let r1 := d1.factoryMap.factory env skinName
  match r1.1 with
  | some f => (some (f, skinName), { d1 with factoryMap := r1.2 })
  | none =>
    let r2 := r1.2.skinNames env
    match r2.1 with
    | name :: _ =>
      let r3 := r2.2.factory env name
      (r3.1.map (fun f => (f, name)), { d1 with factoryMap := r3.2 })
    | [] => (none, { d1 with factoryMap := r2.2 })

/-! ## Notions used to state the properties -/

namespace FactoryMap

/-- The names a record of the factory table contributes in the first loop of
`rebuild`: those of a record without loader and with a factory. -/
def manualNames (env : Env) (entry : String × Data) : List String :=
  match entry.2.loader, entry.2.factory with
  | none, some f => env.factorySkinNames f
  | _, _ => []

/-- The names a record contributes in the second loop of `rebuild`: those of
its loader. -/
def loaderNames (entry : String × Data) : List String :=
  match entry.2.loader with
  | some l => l.m_skinNames
  | none => []

/-- The name index is not stale: it is invalid (and rebuilt by the next
query), or it is what `rebuild` computes from the factory table. -/
def Fresh (env : Env) (fm : FactoryMap) : Prop :=
  fm.m_isValid = false ∨ fm.rebuild env = fm

/-- The name list and the name map of a valid index agree: no name is listed
twice, and a name is listed exactly when the map has an entry for it. -/
def IndexInv (fm : FactoryMap) : Prop :=
  fm.m_skinNames.Nodup ∧ ∀ n, n ∈ fm.m_skinNames ↔ QMap.contains fm.m_skinMap n = true

end FactoryMap

instance QMap.decidableWF {α : Type} (m : QMap α) : Decidable (QMap.WF m) :=
  inferInstanceAs
    (Decidable (List.Pairwise (fun (x y : String × α) => qstringLess x.1 y.1 = true) m))

namespace FactoryMap

instance decidableFresh (env : Env) (fm : FactoryMap) : Decidable (fm.Fresh env) :=
  inferInstanceAs (Decidable (fm.m_isValid = false ∨ fm.rebuild env = fm))

/-- The two groups of records `rebuild` walks one after the other. -/
inductive Group where
  | manual
  | loader
deriving DecidableEq, Repr

/-- The names a record contributes when its group is walked. -/
def Group.names (env : Env) : Group → String × Data → List String
  | Group.manual => manualNames env
  | Group.loader => loaderNames

/-- The states of a `FactoryMap`: a fresh object, and whatever a call of one
of its public methods makes of a state. -/
inductive Reachable (env : Env) : FactoryMap → Prop
  | init : Reachable env {}
  | insertFactoryLoader {fm : FactoryMap} (loader : FactoryLoader) :
      Reachable env fm → Reachable env (fm.insertFactoryLoader loader)
  | insertFactory {fm : FactoryMap} (factoryId : String) (f : Option QskSkinFactory) :
      Reachable env fm → Reachable env (fm.insertFactory factoryId f)
  | removeFactory {fm : FactoryMap} (factoryId : String) :
      Reachable env fm → Reachable env (fm.removeFactory factoryId)
  | reset {fm : FactoryMap} : Reachable env fm → Reachable env fm.reset
  | factory {fm : FactoryMap} (skinName : String) :
      Reachable env fm → Reachable env (fm.factory env skinName).2
  | skinNames {fm : FactoryMap} : Reachable env fm → Reachable env (fm.skinNames env).2

end FactoryMap

/-! ## A sample installation -/

/-- A sample environment: the directory `/p/skins` holds the plugins `1.so`
(factory id `B`) and `2.so` (factory id `A`) and a text file; two factory
objects live at the addresses 1 and 2, one without any skin at address 7. -/
def sampleEnv : Env where
  interfaceId := "iid"
  metaData := fun f =>
    if f = "/p/skins/1.so" then ⟨"iid", "B", [⟨"Y", "Dark"⟩]⟩
    else if f = "/p/skins/2.so" then ⟨"iid", "A", [⟨"Y", "Dark"⟩, ⟨"Z", "Dark"⟩]⟩
    else ⟨"", "", []⟩
  pluginFactory := fun f =>
    if f = "/p/skins/1.so" then some 101
    else if f = "/p/skins/2.so" then some 102
    else none
  factorySkinNames := fun a =>
    if a = 1 then ["Alpha", "Beta"] else if a = 2 then ["X", "Y"] else []
  entryList := fun p => if p = "/p/skins" then ["1.so", "2.so", "notes.txt"] else []
  absoluteFilePath := fun p f => p ++ "/" ++ f
  canonicalPath := fun p => if p = "/p/." then "/p" else if p = "/gone" then "" else p
  toLower := fun s => String.mk (s.data.map Char.toLower)
  colorScheme := ColorScheme.Light
  qtAtLeast65 := true

/-- The loader that probed `/p/skins/1.so`. -/
def sampleLoaderB : FactoryLoader :=
  { addr := 0, fileName := "/p/skins/1.so", m_factoryId := "b", m_skinNames := ["Y"] }

/-- The loader that probed `/p/skins/2.so`. -/
def sampleLoaderA : FactoryLoader :=
  { addr := 1, fileName := "/p/skins/2.so", m_factoryId := "a", m_skinNames := ["Y", "Z"] }

/-- The factory table after `insertFactory( loader )` for the loader of
`1.so` (id `b`) and then for the loader of `2.so` (id `a`). -/
def sampleMapBA : FactoryMap :=
  (({} : FactoryMap).insertFactoryLoader sampleLoaderB).insertFactoryLoader sampleLoaderA

/-- The factory table after the factory at address 2 was inserted under the
ids `m` and `n`, followed by the loaders of `2.so` and `1.so`. -/
def sampleMapShared : FactoryMap :=
  (((({} : FactoryMap).insertFactory "m" (some 2)).insertFactory "n" (some 2)).insertFactoryLoader
    sampleLoaderA).insertFactoryLoader sampleLoaderB

/-- The factory table after the loader of `2.so` (id `a`) was inserted and
then the factory at address 2 under the id `m`. -/
def sampleMapMixed : FactoryMap :=
  (({} : FactoryMap).insertFactoryLoader sampleLoaderA).insertFactory "m" (some 2)

/-- A manager without plugin paths in which the factory at address 7, which
has no skin, was registered under the id `empty`. -/
def sampleNoSkin : PrivateData :=
  registerFactory sampleEnv {} "Empty" (some 7)

/-- A manager without plugin paths in which the factory at address 1
(`Alpha`, `Beta`) was registered under the id `f`, and whose skin names were
then queried. -/
def sampleQueried : PrivateData :=
  (skinNames sampleEnv (registerFactory sampleEnv {} "F" (some 1))).2

/-- A manager with the plugin path `/p` whose skin names were queried, so
that the plugins of `/p/skins` are registered. -/
def sampleScanned : PrivateData :=
  (skinNames sampleEnv (setPluginPaths sampleEnv {} ["/p"])).2

/-- A list with every duplicate removed, the first occurrence kept. -/
def keepFirst : List String → List String
  | [] => []
  | x :: xs => x :: (keepFirst xs).filter (fun y => y ≠ x)

/-- The search path set the specification assigns to a list of inputs: the
canonicalized inputs, the empty results dropped, every duplicate removed
keeping the first occurrence, in input order. -/
def specPluginPaths (env : Env) (paths : List String) : List String :=
  keepFirst ((paths.map env.canonicalPath).filter (fun p => p ≠ ""))

/-- A manager with the plugin paths `/p` and `/q` before any query. -/
def sampleUnscanned : PrivateData :=
  setPluginPaths sampleEnv {} ["/p", "/q"]

/-! ## QskBoxNode

A shallow embedding of `src/nodes/QskBoxNode.cpp`.  The value parameters of
`updateNode` are opaque to the code, which only asks them the questions
collected in `BoxInputs`.  The scene-graph primitives of `QskSGNode` are not
part of the sources at hand and are modelled from the specification. -/

/-- The anonymous `enum Role` of `QskBoxNode.cpp`. -/
inductive Role where
  | ShadowRole
  | ShadowFillRole
  | BoxRole
  | FillRole
deriving DecidableEq, Repr

/-- The node classes `updateNode` instantiates. -/
inductive NodeClass where
  | QskBoxShadowNode
  | QskBoxRectangleNode
deriving DecidableEq, Repr

/-- What a child node was last asked to draw. -/
inductive Drawing where
  | nothing
  | shadowData
  | shadowFilling
  | border
  | filling
  | box
deriving DecidableEq, Repr

/-- Modelled from the spec: a child node of the scene graph (the classes
`QSGNode`, `QskBoxShadowNode` and `QskBoxRectangleNode` are not among the
sources): its address, the role it is tagged with, its class, whether
`hasHint( QskFillNode::PreferColoredGeometry )` holds for it, and what it
draws. -/
structure SGNode where
  addr : Nat
  role : Option Role := none
  nodeClass : NodeClass
  preferColoredGeometry : Bool := false
  drawing : Drawing := Drawing.nothing
deriving DecidableEq, Repr

/-- Modelled from the spec: a `QskBoxNode` as a parent in the scene graph, the
"fixed role table" of its role-tagged child slots with at most one node per
role, and the number of nodes created so far, which is the address of the
next node. -/
structure QskBoxNode where
  slot : Role → Option SGNode := fun _ => none
  allocated : Nat := 0

/-- What the code asks of the arguments of `updateNode`. -/
structure BoxInputs where
  /-- the value of `rect.isEmpty()` -/
  rectIsEmpty : Bool
  /-- the value of `gradient.isVisible()` -/
  gradientIsVisible : Bool
  /-- the value of `borderMetrics.isNull()` -/
  borderMetricsIsNull : Bool
  /-- the value of `borderColors.isVisible()` -/
  borderColorsIsVisible : Bool
  /-- the value of `shadowMetrics.isNull()` -/
  shadowMetricsIsNull : Bool
  /-- the value of `QskRgb::isVisible( shadowColor )` -/
  shadowColorIsVisible : Bool
  /-- the value of `shadowMetrics.blurRadius()`, a finite number -/
  blurRadius : Rat
  /-- the value of `QskBoxRectangleNode::isCombinedGeometrySupported( gradient )` -/
  combinedGeometrySupported : Bool
deriving DecidableEq, Repr

/-- The state of a node of class `cls` right after its constructor ran:
whether the hint `PreferColoredGeometry` is set. -/
structure SGEnv where
  preferColoredGeometry : NodeClass → Bool

namespace QskSGNode

/-- Modelled from the spec: `QskSGNode::setNodeRole`, which tags a node with
its role. -/
def setNodeRole (node : SGNode) (role : Role) : SGNode :=
  { node with role := some role }

/-- Modelled from the spec: `QskSGNode::findChildNode`, the primitive "find
child tagged with role" over the fixed role table of the parent. -/
def findChildNode (parentNode : QskBoxNode) (role : Role) : Option SGNode :=
  parentNode.slot role

/-- Modelled from the spec: `QskSGNode::replaceChildNode`, the primitive
"replace child at role": afterwards the slot of `role` holds `newNode`, tagged
with the role, and `oldNode`, unless it is `newNode`, is detached; the other
slots are untouched.  The list `roles` is the canonical order of the slots. -/
def replaceChildNode (_roles : List Role) (role : Role) (parentNode : QskBoxNode)
    (_oldNode newNode : Option SGNode) : QskBoxNode :=
  { parentNode with
    slot := fun r =>
      if r = role then newNode.map (fun n => setNodeRole n role) else parentNode.slot r }

/-- Modelled from the spec: the children of the parent in the canonical order
of the roles. -/
def childNodes (roles : List Role) (parentNode : QskBoxNode) : List SGNode :=
  roles.filterMap parentNode.slot

end QskSGNode

namespace SGNode

/-- Modelled from the spec: the call `QskBoxRectangleNode::updateFilling`, of
which only the fact that it was the last update of the node is kept (the
flag tells the shadow filling of line 91 from the filling of line 116). -/
def updateFilling (node : SGNode) (shadow : Bool) : SGNode :=
  { node with drawing := if shadow then Drawing.shadowFilling else Drawing.filling }

/-- Modelled from the spec: the call `QskBoxShadowNode::setShadowData`. -/
def setShadowData (node : SGNode) : SGNode :=
  { node with drawing := Drawing.shadowData }

/-- Modelled from the spec: the call `QskBoxRectangleNode::updateBorder`. -/
def updateBorder (node : SGNode) : SGNode :=
  { node with drawing := Drawing.border }

/-- Modelled from the spec: the call `QskBoxRectangleNode::updateBox`. -/
def updateBox (node : SGNode) : SGNode :=
  { node with drawing := Drawing.box }

end SGNode

namespace QskBoxNode

open QskSGNode

/-- The static vector `roles` of `qskUpdateChildren`. -/
def roles : List Role :=
  [Role.ShadowRole, Role.ShadowFillRole, Role.BoxRole, Role.FillRole]

/-- The function `qskUpdateChildren`. -/
def qskUpdateChildren (parentNode : QskBoxNode) (role : Role) (node : Option SGNode) :
    QskBoxNode :=
  let oldNode := findChildNode parentNode role
  replaceChildNode roles role parentNode oldNode node

/-- The function template `qskNode< Node >`: the child found for the role, or
a new node of the class, tagged with the role. -/
def qskNode (env : SGEnv) (parentNode : QskBoxNode) (cls : NodeClass) (role : Role) :
    SGNode × QskBoxNode :=
  match findChildNode parentNode role with
  | some node => (node, parentNode)
  | none =>
    (setNodeRole
        { addr := parentNode.allocated, nodeClass := cls,
          preferColoredGeometry := env.preferColoredGeometry cls } role,
      { parentNode with allocated := parentNode.allocated + 1 })

/-- The node and the four local pointers of `updateNode`. -/
structure Locals where
  self : QskBoxNode
  shadowNode : Option SGNode := none
  shadowFillNode : Option SGNode := none
  rectNode : Option SGNode := none
  fillNode : Option SGNode := none

/-- Lines 82-98 of `updateNode`: the branch `if ( hasShadow )`. -/
def updateShadow (env : SGEnv) (inp : BoxInputs) (hasShadow : Bool) (s : Locals) : Locals :=
  if hasShadow then
    if inp.blurRadius ≤ 0 then
      let r := qskNode env s.self NodeClass.QskBoxRectangleNode Role.ShadowFillRole
      { s with self := r.2, shadowFillNode := some (r.1.updateFilling true) }
    else
      let r := qskNode env s.self NodeClass.QskBoxShadowNode Role.ShadowRole
      { s with self := r.2, shadowNode := some r.1.setShadowData }
  else s

/-- Lines 100-122 of `updateNode`: the branch `if ( hasBorder || hasFilling )`. -/
def updateBoxAndFill (env : SGEnv) (inp : BoxInputs) (hasBorder hasFilling : Bool)
    (s : Locals) : Locals :=
  if hasBorder || hasFilling then
    let r := qskNode env s.self NodeClass.QskBoxRectangleNode Role.BoxRole
    let rectNode := r.1
    let s1 : Locals := { s with self := r.2, rectNode := some rectNode }
    let s2 : Locals :=
      if hasBorder && hasFilling then
        let doCombine := rectNode.preferColoredGeometry && inp.combinedGeometrySupported
        if !doCombine then
          let r2 := qskNode env s1.self NodeClass.QskBoxRectangleNode Role.FillRole
          { s1 with self := r2.2, fillNode := some r2.1 }
        else s1
      else s1
    match s2.fillNode with
    | some fillNode =>
      { s2 with rectNode := some rectNode.updateBorder
                fillNode := some (fillNode.updateFilling false) }
    | none => { s2 with rectNode := some rectNode.updateBox }
  else s

/-- Lines 69-123 of `updateNode`: the local pointers when the calls of
`qskUpdateChildren` are reached. -/
def updateLocals (env : SGEnv) (self : QskBoxNode) (inp : BoxInputs) : Locals :=
  let s0 : Locals := { self := self }
  if !inp.rectIsEmpty then
    let hasFilling := inp.gradientIsVisible
    let hasBorder := !inp.borderMetricsIsNull && inp.borderColorsIsVisible
    let hasShadow := hasFilling && !inp.shadowMetricsIsNull && inp.shadowColorIsVisible
    updateBoxAndFill env inp hasBorder hasFilling (updateShadow env inp hasShadow s0)
  else s0

/-- The method `QskBoxNode::updateNode`. -/
def updateNode (env : SGEnv) (self : QskBoxNode) (inp : BoxInputs) : QskBoxNode :=
  let s1 := updateLocals env self inp
  let p1 := qskUpdateChildren s1.self Role.ShadowRole s1.shadowNode
  let p2 := qskUpdateChildren p1 Role.ShadowFillRole s1.shadowFillNode
  let p3 := qskUpdateChildren p2 Role.BoxRole s1.rectNode
  qskUpdateChildren p3 Role.FillRole s1.fillNode

/-- The node `n` held for role `r` is the node the role had in `self`, or, if
the role had none, a node created since, below the allocation mark `bound`. -/
def Origin (self : QskBoxNode) (bound : Nat) (r : Role) (node : Option SGNode) : Prop :=
  ∀ n, node = some n →
    (∀ m, self.slot r = some m → n.addr = m.addr ∧ n.nodeClass = m.nodeClass) ∧
      (self.slot r = none → self.allocated ≤ n.addr ∧ n.addr < bound)

/-- One when the role had no node and the pointer is set, else zero. -/
def created (before node : Option SGNode) : Nat :=
  if before.isNone && node.isSome then 1 else 0

/-- The local pointers hold reused nodes or nodes created in this call, and
every node created in this call is held by a pointer. -/
def Tracks (self : QskBoxNode) (s : Locals) : Prop :=
  s.self.slot = self.slot ∧
    Origin self s.self.allocated Role.ShadowRole s.shadowNode ∧
    Origin self s.self.allocated Role.ShadowFillRole s.shadowFillNode ∧
    Origin self s.self.allocated Role.BoxRole s.rectNode ∧
    Origin self s.self.allocated Role.FillRole s.fillNode ∧
    s.self.allocated =
      self.allocated + created (self.slot Role.ShadowRole) s.shadowNode +
        created (self.slot Role.ShadowFillRole) s.shadowFillNode +
        created (self.slot Role.BoxRole) s.rectNode +
        created (self.slot Role.FillRole) s.fillNode

end QskBoxNode

/-! ## Sample box nodes -/

/-- A scene-graph environment in which a new rectangle node prefers coloured
geometry and a new shadow node does not. -/
def sampleSGEnv : SGEnv where
  preferColoredGeometry := fun cls =>
    match cls with
    | NodeClass.QskBoxRectangleNode => true
    | NodeClass.QskBoxShadowNode => false

/-- A box node all four roles of which have a child. -/
def sampleFullBox : QskBoxNode where
  slot := fun r =>
    match r with
    | Role.ShadowRole =>
      some { addr := 0, role := some Role.ShadowRole, nodeClass := NodeClass.QskBoxShadowNode }
    | Role.ShadowFillRole =>
      some { addr := 1, role := some Role.ShadowFillRole,
             nodeClass := NodeClass.QskBoxRectangleNode }
    | Role.BoxRole =>
      some { addr := 2, role := some Role.BoxRole, nodeClass := NodeClass.QskBoxRectangleNode,
             preferColoredGeometry := true }
    | Role.FillRole =>
      some { addr := 3, role := some Role.FillRole, nodeClass := NodeClass.QskBoxRectangleNode }
  allocated := 4

/-- Arguments of `updateNode` with everything visible: a non-empty rectangle,
a visible gradient and border, a shadow of blur radius 3, a gradient that
supports combined geometry. -/
def sampleInputs : BoxInputs where
  rectIsEmpty := false
  gradientIsVisible := true
  borderMetricsIsNull := false
  borderColorsIsVisible := true
  shadowMetricsIsNull := false
  shadowColorIsVisible := true
  blurRadius := 3
  combinedGeometrySupported := true

/-! ## The scanner with a fresh prober per candidate -/

namespace PrivateData

/-- The loop body of the variant of `registerPlugins` named in the open
question of the specification: "always allocate fresh per-candidate probers".
Every candidate file is probed by a new `FactoryLoader`; a loader that is not
committed is discarded. -/
def registerPluginsFreshStep (env : Env) (path : String) (d : PrivateData)
    (fileName : String) : PrivateData :=
  let loader0 : FactoryLoader := { addr := d.allocated }
  let r := loader0.setPlugin env (env.absoluteFilePath path fileName) d.dummyIds
  let d1 := { d with allocated := d.allocated + 1, dummyIds := r.2.2 }
  if r.1 && !d1.factoryMap.hasFactory r.2.1.m_factoryId then
    { d1 with factoryMap := d1.factoryMap.insertFactoryLoader r.2.1 }
  else d1

/-- The variant of `registerPlugins` with a fresh prober per candidate. -/
def registerPluginsFresh (env : Env) (d : PrivateData) (path : String) : PrivateData :=
  (env.entryList path).foldl (registerPluginsFreshStep env path)
    { d with scanned := d.scanned ++ [path] }

/-- The factory ids committed from plugins, each with the skin names its
loader advertises, in key order. -/
def committed (d : PrivateData) : List (String × List String) :=
  d.factoryMap.m_factoryMap.filterMap (fun e => e.2.loader.map (fun l => (e.1, l.m_skinNames)))

end PrivateData

/-- Whether the scheme declared for a skin is the active colour scheme, the
test of line 127. -/
def SkinEntry.matchesScheme (env : Env) (skin : SkinEntry) : Bool :=
  decide (FactoryLoader.schemeOf skin.scheme = env.colorScheme)

/-- A second sample environment.  The directory `/r/skins` holds `1.so`
(factory id `Dup`), `2.so` (the excluded factory id `Fluent2Factory`), `3.so`
(a plugin of another interface) and `4.so` (factory id `C`); the directory
`/s/skins` holds copies of `1.so` and `4.so`.  The file `/r/skins/5.so`
declares skins of both schemes.  The factory object at address 1 advertises
`X`. -/
def reuseEnv : Env where
  interfaceId := "iid"
  metaData := fun f =>
    if f = "/r/skins/1.so" ∨ f = "/s/skins/1.so" then ⟨"iid", "Dup", [⟨"X", "Dark"⟩]⟩
    else if f = "/r/skins/2.so" then ⟨"iid", "Fluent2Factory", [⟨"F", "Dark"⟩]⟩
    else if f = "/r/skins/3.so" then ⟨"other", "Stranger", [⟨"S", "Dark"⟩]⟩
    else if f = "/r/skins/4.so" ∨ f = "/s/skins/4.so" then ⟨"iid", "C", [⟨"Z", "Dark"⟩]⟩
    else if f = "/r/skins/5.so" then
      ⟨"iid", "E", [⟨"D", "Dark"⟩, ⟨"L", "Light"⟩, ⟨"N", ""⟩, ⟨"M", "Light"⟩]⟩
    else ⟨"", "", []⟩
  pluginFactory := fun f => if f = "/r/skins/4.so" then some 204 else none
  factorySkinNames := fun a => if a = 1 then ["X"] else []
  entryList := fun p =>
    if p = "/r/skins" then ["1.so", "2.so", "3.so", "4.so"]
    else if p = "/s/skins" then ["1.so", "4.so"]
    else []
  absoluteFilePath := fun p f => p ++ "/" ++ f
  canonicalPath := fun p => p
  toLower := fun s => String.mk (s.data.map Char.toLower)
  colorScheme := ColorScheme.Light
  qtAtLeast65 := true

/-- A manager in which the factory at address 1 was registered under the id
`dup`, before any scan. -/
def reuseStart : PrivateData :=
  registerFactory reuseEnv {} "Dup" (some 1)

/-! ## Sequences of registrations -/

/-- A call of one of the two forms of `FactoryMap::insertFactory`. -/
inductive InsertCall where
  | loader (loader : FactoryLoader)
  | manual (factoryId : String) (factory : Option QskSkinFactory)
deriving DecidableEq, Repr

namespace InsertCall

/-- The factory id under which the call stores its record. -/
def factoryId : InsertCall → String
  | loader l => l.m_factoryId
  | manual factoryId _ => factoryId

/-- The tests `data.loader != loader` and `data.factory != factory` on the
record found under the id. -/
def changes : InsertCall → Data → Bool
  | loader l, data => decide (data.loader.map (fun x => x.addr) ≠ some l.addr)
  | manual _ f, data => decide (data.factory ≠ f)

/-- The record the call leaves under its id. -/
def record (c : InsertCall) (data : Data) : Data :=
  if c.changes data then
    match c with
    | loader l => { data.reset with loader := some l }
    | manual _ f => { data.reset with factory := f }
  else data

/-- Whether the call, when it changes the record, clears `m_skinNames` too. -/
def clearsNames : InsertCall → Bool
  | loader _ => false
  | manual _ _ => true

end InsertCall

namespace FactoryMap

/-- The call applied to a factory map. -/
def insertCall (fm : FactoryMap) : InsertCall → FactoryMap
  | InsertCall.loader l => fm.insertFactoryLoader l
  | InsertCall.manual factoryId f => fm.insertFactory factoryId f

/-- A sequence of calls applied to a factory map, first call first. -/
def insertAll (fm : FactoryMap) (calls : List InsertCall) : FactoryMap :=
  calls.foldl insertCall fm

/-- The names the records of a table contribute in one pass of `rebuild`, in
the order of the pass. -/
def contributed (g : String × Data → List String) : List (String × Data) → List String
  | [] => []
  | e :: es => g e ++ contributed g es

end FactoryMap

/-- Three registrations: the factory at address 2 under `m`, the loader of
`2.so` (id `a`), the loader of `1.so` (id `b`). -/
def sampleCalls : List InsertCall :=
  [InsertCall.manual "m" (some 2), InsertCall.loader sampleLoaderA,
    InsertCall.loader sampleLoaderB]

/-- The registrations of `sampleCalls` in another order. -/
def sampleCallsPermuted : List InsertCall :=
  [InsertCall.loader sampleLoaderB, InsertCall.manual "m" (some 2),
    InsertCall.loader sampleLoaderA]

/-- The sample environment with one more factory object: the one at address 3
advertises `Y`. -/
def staleEnv : Env :=
  { sampleEnv with
    factorySkinNames := fun a => if a = 3 then ["Y"] else sampleEnv.factorySkinNames a }

/-- A manager with the plugin path `/p` in which the factory at address 2 was
registered under `m` and the factory at address 3 under `0`, whose skin names
were then queried, and from which the factory `0` was unregistered. -/
def sampleStale : PrivateData :=
  unregisterFactory staleEnv
    (skinNames staleEnv
      (registerFactory staleEnv
        (registerFactory staleEnv (setPluginPaths staleEnv {} ["/p"]) "M" (some 2))
        "0" (some 3))).2
    "0"

/-! ## Lemmas: the order of the keys and `QMap` -/

theorem unitsLess_irrefl (l : List Nat) : unitsLess l l = false := by
  induction l with
  | nil => rfl
  | cons a as ih => simp [unitsLess, ih]

theorem unitsLess_trans {l1 l2 l3 : List Nat} (h1 : unitsLess l1 l2 = true)
    (h2 : unitsLess l2 l3 = true) : unitsLess l1 l3 = true := by
  induction l1 generalizing l2 l3 with
  | nil =>
    cases l2 with
    | nil => simp [unitsLess] at h1
    | cons b bs =>
      cases l3 with
      | nil => simp [unitsLess] at h2
      | cons c cs => simp [unitsLess]
  | cons a as ih =>
    cases l2 with
    | nil => simp [unitsLess] at h1
    | cons b bs =>
      cases l3 with
      | nil => simp [unitsLess] at h2
      | cons c cs =>
        simp only [unitsLess, Bool.or_eq_true, Bool.and_eq_true, decide_eq_true_eq] at h1 h2 ⊢
        rcases h1 with h1 | ⟨h1, h1'⟩
        · rcases h2 with h2 | ⟨h2, _⟩
          · exact Or.inl (lt_trans h1 h2)
          · exact Or.inl (h2 ▸ h1)
        · rcases h2 with h2 | ⟨h2, h2'⟩
          · exact Or.inl (h1 ▸ h2)
          · exact Or.inr ⟨h1.trans h2, ih h1' h2'⟩

theorem unitsLess_of_not {l1 l2 : List Nat} (h1 : unitsLess l1 l2 = false) (h2 : l1 ≠ l2) :
    unitsLess l2 l1 = true := by
  induction l1 generalizing l2 with
  | nil =>
    cases l2 with
    | nil => exact absurd rfl h2
    | cons b bs => simp [unitsLess] at h1
  | cons a as ih =>
    cases l2 with
    | nil => simp [unitsLess]
    | cons b bs =>
      simp only [unitsLess, Bool.or_eq_false_iff, Bool.and_eq_false_imp, decide_eq_false_iff_not,
        decide_eq_true_eq, not_lt] at h1
      simp only [unitsLess, Bool.or_eq_true, Bool.and_eq_true, decide_eq_true_eq]
      obtain ⟨hle, himp⟩ := h1
      by_cases hab : a = b
      · subst hab
        right
        refine ⟨rfl, ih (himp rfl) ?_⟩
        intro e
        exact h2 (by rw [e])
      · left
        omega

theorem char_range (c : Char) : c.toNat < 0xD800 ∨ (0xDFFF < c.toNat ∧ c.toNat < 0x110000) :=
  c.valid

theorem char_eq_of_toNat {c d : Char} (h : c.toNat = d.toNat) : c = d :=
  Char.ext (UInt32.toNat.inj h)

/-- The encoding into code units can be read back: equal unit sequences come
from equal characters. -/
theorem utf16Units_append_inj {c d : Char} {x y : List Nat}
    (h : utf16Units c ++ x = utf16Units d ++ y) : c = d ∧ x = y := by
  have hc := char_range c
  have hd := char_range d
  unfold utf16Units at h
  by_cases h1 : c.toNat < 0x10000 <;> by_cases h2 : d.toNat < 0x10000 <;>
    simp only [h1, h2, if_true, if_false, List.cons_append, List.nil_append,
      List.cons.injEq] at h
  · exact ⟨char_eq_of_toNat h.1, h.2⟩
  · exfalso
    obtain ⟨h3, _⟩ := h
    omega
  · exfalso
    obtain ⟨h3, _⟩ := h
    omega
  · obtain ⟨h3, h4, h5⟩ := h
    refine ⟨char_eq_of_toNat ?_, h5⟩
    omega

theorem unitsOf_inj {l1 l2 : List Char} (h : unitsOf l1 = unitsOf l2) : l1 = l2 := by
  induction l1 generalizing l2 with
  | nil =>
    cases l2 with
    | nil => rfl
    | cons d ds =>
      exfalso
      simp only [unitsOf, utf16Units] at h
      split at h <;> simp at h
  | cons c cs ih =>
    cases l2 with
    | nil =>
      exfalso
      simp only [unitsOf, utf16Units] at h
      split at h <;> simp at h
    | cons d ds =>
      simp only [unitsOf] at h
      obtain ⟨h1, h2⟩ := utf16Units_append_inj h
      rw [h1, ih h2]

theorem qstringLess_irrefl (a : String) : qstringLess a a = false :=
  unitsLess_irrefl _

theorem qstringLess_trans {a b c : String} (h1 : qstringLess a b = true)
    (h2 : qstringLess b c = true) : qstringLess a c = true :=
  unitsLess_trans h1 h2

theorem qstringLess_of_not {a b : String} (h1 : qstringLess a b = false) (h2 : a ≠ b) :
    qstringLess b a = true :=
  unitsLess_of_not h1 (fun e => h2 (String.ext (unitsOf_inj e)))

/-- The key order is that of the code units, not of the code points: the
character U+10000, stored as the pair D800 DC00, sorts before U+FFFD. -/
theorem qstringLess_surrogates :
    qstringLess (String.mk [Char.ofNat 0x10000]) (String.mk [Char.ofNat 0xFFFD]) = true ∧
      qstringLess (String.mk [Char.ofNat 0xFFFD]) (String.mk [Char.ofNat 0x10000]) = false := by
  decide


namespace QMap

variable {α : Type}

theorem find_insert (m : QMap α) (k : String) (v : α) (k' : String) :
    find (insert m k v) k' = if k = k' then some v else find m k' := by
  induction m with
  | nil => simp [insert, find]
  | cons e rest ih =>
    obtain ⟨ke, ve⟩ := e
    by_cases h1 : qstringLess k ke = true
    · simp [insert, h1, find]
    · by_cases h2 : k = ke
      · subst h2
        have h4 : insert ((k, ve) :: rest) k v = (k, v) :: rest := by
          simp [insert, h1]
        rw [h4]
        by_cases h3 : k = k' <;> simp [find, h3]
      · simp only [insert, h1, h2, find, if_false, Bool.false_eq_true]
        rw [ih]
        by_cases h3 : ke = k'
        · subst h3
          simp [h2]
        · simp [h3]

theorem contains_insert (m : QMap α) (k : String) (v : α) (k' : String) :
    contains (insert m k v) k' = (decide (k = k') || contains m k') := by
  unfold contains
  rw [find_insert]
  by_cases h : k = k' <;> simp [h]

theorem mem_of_find {m : QMap α} {k : String} {v : α} (h : find m k = some v) :
    (k, v) ∈ m := by
  induction m with
  | nil => simp [find] at h
  | cons e rest ih =>
    obtain ⟨ke, ve⟩ := e
    by_cases h1 : ke = k
    · subst h1
      simp [find] at h
      simp [h]
    · simp [find, h1] at h
      exact List.mem_cons_of_mem _ (ih h)

theorem find_of_mem {m : QMap α} (hm : WF m) {k : String} {v : α} (h : (k, v) ∈ m) :
    find m k = some v := by
  induction m with
  | nil => simp at h
  | cons e rest ih =>
    obtain ⟨ke, ve⟩ := e
    have hp := List.pairwise_cons.1 hm
    rcases List.mem_cons.1 h with h1 | h1
    · cases h1
      simp [find]
    · have hlt := hp.1 _ h1
      have hne : ke ≠ k := by
        intro he
        subst he
        simp [qstringLess_irrefl] at hlt
      simp [find, hne]
      exact ih hp.2 h1

theorem wf_insert {m : QMap α} (hm : WF m) (k : String) (v : α) : WF (insert m k v) := by
  induction m with
  | nil => simp [insert, WF]
  | cons e rest ih =>
    obtain ⟨ke, ve⟩ := e
    have hp := List.pairwise_cons.1 hm
    by_cases h1 : qstringLess k ke = true
    · simp only [insert, h1, if_true]
      refine List.pairwise_cons.2 ⟨?_, hm⟩
      intro x hx
      rcases List.mem_cons.1 hx with hx | hx
      · subst hx
        exact h1
      · exact qstringLess_trans h1 (hp.1 x hx)
    · by_cases h2 : k = ke
      · subst h2
        simp only [insert, h1, if_true, if_false]
        exact List.pairwise_cons.2 ⟨hp.1, hp.2⟩
      · simp only [insert, h1, h2, if_false]
        refine List.pairwise_cons.2 ⟨?_, ih hp.2⟩
        intro x hx
        have hx' : x ∈ rest ∨ x = (k, v) := by
          clear ih hp hm
          induction rest with
          | nil => simp [insert] at hx; exact Or.inr hx
          | cons e2 rest2 ih2 =>
            obtain ⟨k2, v2⟩ := e2
            simp only [insert] at hx
            split at hx
            · rcases List.mem_cons.1 hx with hx | hx
              · exact Or.inr hx
              · exact Or.inl hx
            · split at hx
              · rcases List.mem_cons.1 hx with hx | hx
                · exact Or.inr hx
                · exact Or.inl (List.mem_cons_of_mem _ hx)
              · rcases List.mem_cons.1 hx with hx | hx
                · exact Or.inl (hx ▸ List.mem_cons_self _ _)
                · rcases ih2 hx with h | h
                  · exact Or.inl (List.mem_cons_of_mem _ h)
                  · exact Or.inr h
        rcases hx' with hx' | hx'
        · exact hp.1 x hx'
        · subst hx'
          exact qstringLess_of_not (by simpa using h1) h2

theorem erase_sublist (m : QMap α) (k : String) : List.Sublist (erase m k) m := by
  induction m with
  | nil => simp [erase]
  | cons e rest ih =>
    obtain ⟨ke, ve⟩ := e
    by_cases h : ke = k
    · simp [erase, h]
    · simp only [erase, h, if_false]
      exact ih.cons₂ _

theorem wf_erase {m : QMap α} (hm : WF m) (k : String) : WF (erase m k) :=
  List.Pairwise.sublist (erase_sublist m k) hm

theorem keys_assign (m : QMap α) (k : String) (v : α) : keys (assign m k v) = keys m := by
  induction m with
  | nil => simp [assign]
  | cons e rest ih =>
    obtain ⟨ke, ve⟩ := e
    by_cases h : ke = k
    · simp [assign, h, keys]
    · simp only [assign, h, if_false]
      simp only [keys, List.map_cons] at ih ⊢
      rw [ih]

theorem wf_iff_keys (m : QMap α) :
    WF m ↔ (keys m).Pairwise (fun a b => qstringLess a b = true) := by
  simp [WF, keys, List.pairwise_map]

theorem wf_assign {m : QMap α} (hm : WF m) (k : String) (v : α) : WF (assign m k v) := by
  rw [wf_iff_keys] at hm ⊢
  rw [keys_assign]
  exact hm

theorem find_assign (m : QMap α) (k : String) (v : α) (k' : String) :
    find (assign m k v) k' = if k' = k ∧ (find m k).isSome then some v else find m k' := by
  induction m with
  | nil => simp [assign, find]
  | cons e rest ih =>
    obtain ⟨ke, ve⟩ := e
    by_cases h : ke = k
    · subst h
      by_cases h2 : ke = k'
      · subst h2
        simp [assign, find]
      · have h3 : ¬ k' = ke := fun h => h2 h.symm
        simp [assign, find, h2, h3]
    · simp only [assign, h, if_false, find]
      rw [ih]
      by_cases h2 : ke = k'
      · subst h2
        have h3 : ¬ ke = k := h
        simp [h3]
      · simp [h2]

theorem assign_self {m : QMap α} {k : String} {v : α} (h : find m k = some v) :
    assign m k v = m := by
  induction m with
  | nil => simp [assign]
  | cons e rest ih =>
    obtain ⟨ke, ve⟩ := e
    by_cases h1 : ke = k
    · subst h1
      simp [find] at h
      simp [assign, h]
    · simp [find, h1] at h
      simp [assign, h1, ih h]

end QMap

/-! ## Lemmas: the name index computed by `rebuild` -/

namespace FactoryMap

@[simp] theorem rebuildNames_nil (fm : FactoryMap) (id : String) :
    fm.rebuildNames id [] = fm := rfl

theorem rebuildNames_cons_of_contains {fm : FactoryMap} {n : String}
    (h : QMap.contains fm.m_skinMap n = true) (id : String) (ns : List String) :
    fm.rebuildNames id (n :: ns) = fm.rebuildNames id ns := by
  simp [rebuildNames, List.foldl_cons, h]

theorem rebuildNames_cons_of_not {fm : FactoryMap} {n : String}
    (h : QMap.contains fm.m_skinMap n = false) (id : String) (ns : List String) :
    fm.rebuildNames id (n :: ns) =
      ({ fm with m_skinMap := QMap.insert fm.m_skinMap n id
                 m_skinNames := fm.m_skinNames ++ [n] } : FactoryMap).rebuildNames id ns := by
  simp [rebuildNames, List.foldl_cons, h]

@[simp] theorem rebuildNames_factoryMap (fm : FactoryMap) (id : String) (ns : List String) :
    (fm.rebuildNames id ns).m_factoryMap = fm.m_factoryMap := by
  induction ns generalizing fm with
  | nil => rfl
  | cons n ns ih =>
    cases h : QMap.contains fm.m_skinMap n with
    | true => rw [rebuildNames_cons_of_contains h, ih]
    | false => rw [rebuildNames_cons_of_not h, ih]

@[simp] theorem rebuildNames_isValid (fm : FactoryMap) (id : String) (ns : List String) :
    (fm.rebuildNames id ns).m_isValid = fm.m_isValid := by
  induction ns generalizing fm with
  | nil => rfl
  | cons n ns ih =>
    cases h : QMap.contains fm.m_skinMap n with
    | true => rw [rebuildNames_cons_of_contains h, ih]
    | false => rw [rebuildNames_cons_of_not h, ih]

theorem rebuildNames_setValid (fm : FactoryMap) (b : Bool) (id : String) (ns : List String) :
    ({ fm with m_isValid := b } : FactoryMap).rebuildNames id ns =
      { fm.rebuildNames id ns with m_isValid := b } := by
  induction ns generalizing fm with
  | nil => rfl
  | cons n ns ih =>
    cases h : QMap.contains fm.m_skinMap n with
    | true =>
      have h' : QMap.contains ({ fm with m_isValid := b } : FactoryMap).m_skinMap n = true := h
      rw [rebuildNames_cons_of_contains h, rebuildNames_cons_of_contains h']
      exact ih fm
    | false =>
      have h' : QMap.contains ({ fm with m_isValid := b } : FactoryMap).m_skinMap n = false := h
      rw [rebuildNames_cons_of_not h, rebuildNames_cons_of_not h']
      exact ih { fm with m_skinMap := QMap.insert fm.m_skinMap n id
                         m_skinNames := fm.m_skinNames ++ [n] }

theorem find_rebuildNames (fm : FactoryMap) (id : String) (ns : List String) (y : String) :
    QMap.find (fm.rebuildNames id ns).m_skinMap y =
      (QMap.find fm.m_skinMap y).or (if y ∈ ns then some id else none) := by
  induction ns generalizing fm with
  | nil => simp
  | cons n ns ih =>
    cases h : QMap.contains fm.m_skinMap n with
    | true =>
      rw [rebuildNames_cons_of_contains h, ih]
      by_cases hy : y = n
      · subst hy
        unfold QMap.contains at h
        obtain ⟨o, ho⟩ := Option.isSome_iff_exists.1 h
        simp [ho]
      · simp [hy]
    | false =>
      rw [rebuildNames_cons_of_not h, ih]
      simp only []
      rw [QMap.find_insert]
      by_cases hy : n = y
      · subst hy
        unfold QMap.contains at h
        simp at h
        simp [h]
      · have hy' : ¬ y = n := fun e => hy e.symm
        simp [hy, hy']

theorem indexInv_rebuildNames {fm : FactoryMap} (h : fm.IndexInv) (id : String)
    (ns : List String) : (fm.rebuildNames id ns).IndexInv := by
  induction ns generalizing fm with
  | nil => exact h
  | cons n ns ih =>
    cases hc : QMap.contains fm.m_skinMap n with
    | true =>
      rw [rebuildNames_cons_of_contains hc]
      exact ih h
    | false =>
      rw [rebuildNames_cons_of_not hc]
      apply ih
      obtain ⟨hnd, hiff⟩ := h
      have hn : n ∉ fm.m_skinNames := fun hm => by
        have := (hiff n).1 hm
        simp [hc] at this
      refine ⟨?_, ?_⟩
      · exact List.nodup_append.2 ⟨hnd, List.nodup_singleton n, by
          intro a ha hb
          simp at hb
          subst hb
          exact hn ha⟩
      · intro m
        simp only [List.mem_append, List.mem_singleton, QMap.contains_insert, Bool.or_eq_true,
          decide_eq_true_eq]
        rw [hiff m]
        constructor
        · rintro (h1 | h1)
          · exact Or.inr h1
          · exact Or.inl h1.symm
        · rintro (h1 | h1)
          · exact Or.inr h1.symm
          · exact Or.inl h1

theorem rebuildManual_eq (env : Env) (acc : FactoryMap) (e : String × Data) :
    rebuildManual env acc e = acc.rebuildNames e.1 (manualNames env e) := by
  unfold rebuildManual manualNames
  split <;> simp_all

theorem rebuildLoader_eq (acc : FactoryMap) (e : String × Data) :
    rebuildLoader acc e = acc.rebuildNames e.1 (loaderNames e) := by
  unfold rebuildLoader loaderNames
  split <;> simp_all

theorem foldNames_factoryMap (g : String × Data → List String) (es : List (String × Data))
    (acc : FactoryMap) :
    (es.foldl (fun a e => a.rebuildNames e.1 (g e)) acc).m_factoryMap = acc.m_factoryMap := by
  induction es generalizing acc with
  | nil => rfl
  | cons e es ih => simp [List.foldl_cons, ih]

theorem foldNames_isValid (g : String × Data → List String) (es : List (String × Data))
    (acc : FactoryMap) :
    (es.foldl (fun a e => a.rebuildNames e.1 (g e)) acc).m_isValid = acc.m_isValid := by
  induction es generalizing acc with
  | nil => rfl
  | cons e es ih => simp [List.foldl_cons, ih]

theorem foldNames_setValid (g : String × Data → List String) (es : List (String × Data))
    (acc : FactoryMap) (b : Bool) :
    es.foldl (fun a e => a.rebuildNames e.1 (g e)) { acc with m_isValid := b } =
      { es.foldl (fun a e => a.rebuildNames e.1 (g e)) acc with m_isValid := b } := by
  induction es generalizing acc with
  | nil => rfl
  | cons e es ih =>
    simp only [List.foldl_cons]
    rw [rebuildNames_setValid, ih]

theorem foldNames_indexInv (g : String × Data → List String) (es : List (String × Data))
    {acc : FactoryMap} (h : acc.IndexInv) :
    (es.foldl (fun a e => a.rebuildNames e.1 (g e)) acc).IndexInv := by
  induction es generalizing acc with
  | nil => exact h
  | cons e es ih =>
    simp only [List.foldl_cons]
    exact ih (indexInv_rebuildNames h _ _)

theorem find_foldNames (g : String × Data → List String) (es : List (String × Data))
    (acc : FactoryMap) (y : String) :
    QMap.find (es.foldl (fun a e => a.rebuildNames e.1 (g e)) acc).m_skinMap y =
      (QMap.find acc.m_skinMap y).or ((es.find? (fun e => decide (y ∈ g e))).map Prod.fst) := by
  induction es generalizing acc with
  | nil => simp
  | cons e es ih =>
    simp only [List.foldl_cons]
    rw [ih, find_rebuildNames]
    cases hf : QMap.find acc.m_skinMap y with
    | some o => simp
    | none =>
      by_cases hy : y ∈ g e
      · simp [hy, List.find?_cons]
      · simp [hy, List.find?_cons]

/-- The index computed by `rebuild`, as two passes of `rebuildNames`. -/
theorem rebuild_eq (env : Env) (fm : FactoryMap) :
    fm.rebuild env =
      fm.m_factoryMap.foldl (fun a e => a.rebuildNames e.1 (loaderNames e))
        (fm.m_factoryMap.foldl (fun a e => a.rebuildNames e.1 (manualNames env e))
          { m_factoryMap := fm.m_factoryMap, m_skinMap := [], m_skinNames := [],
            m_isValid := true }) := by
  have h1 : rebuildManual env = fun a e => a.rebuildNames e.1 (manualNames env e) := by
    funext a e
    exact rebuildManual_eq env a e
  have h2 : rebuildLoader = fun a e => a.rebuildNames e.1 (loaderNames e) := by
    funext a e
    exact rebuildLoader_eq a e
  unfold rebuild
  simp only [h1, h2]
  rw [← foldNames_setValid, ← foldNames_setValid]

theorem rebuild_congr (env : Env) {fm fm' : FactoryMap}
    (h : fm.m_factoryMap = fm'.m_factoryMap) : fm.rebuild env = fm'.rebuild env := by
  rw [rebuild_eq, rebuild_eq, h]

@[simp] theorem rebuild_factoryMap (env : Env) (fm : FactoryMap) :
    (fm.rebuild env).m_factoryMap = fm.m_factoryMap := by
  rw [rebuild_eq, foldNames_factoryMap, foldNames_factoryMap]

@[simp] theorem rebuild_isValid (env : Env) (fm : FactoryMap) :
    (fm.rebuild env).m_isValid = true := by
  rw [rebuild_eq, foldNames_isValid, foldNames_isValid]

theorem rebuild_rebuild (env : Env) (fm : FactoryMap) :
    (fm.rebuild env).rebuild env = fm.rebuild env :=
  rebuild_congr env (rebuild_factoryMap env fm)

theorem rebuild_indexInv (env : Env) (fm : FactoryMap) : (fm.rebuild env).IndexInv := by
  rw [rebuild_eq]
  apply foldNames_indexInv
  apply foldNames_indexInv
  exact ⟨List.nodup_nil, by intro n; simp [QMap.contains, QMap.find]⟩

/-- The owner `rebuild` enters for a name: the first record in key order that
contributes the name in the first pass, else the first in the second pass. -/
theorem find_rebuild (env : Env) (fm : FactoryMap) (y : String) :
    QMap.find (fm.rebuild env).m_skinMap y =
      ((fm.m_factoryMap.find? (fun e => decide (y ∈ manualNames env e))).map Prod.fst).or
        ((fm.m_factoryMap.find? (fun e => decide (y ∈ loaderNames e))).map Prod.fst) := by
  rw [rebuild_eq, find_foldNames, find_foldNames]
  simp [QMap.find]

end FactoryMap

namespace FactoryMap

/-! ## Lemmas: queries on the factory map -/

theorem ensureValid_of_fresh {env : Env} {fm : FactoryMap} (h : fm.Fresh env) :
    fm.ensureValid env = fm.rebuild env := by
  unfold ensureValid
  cases hv : fm.m_isValid with
  | false => simp
  | true =>
    rcases h with h | h
    · simp [hv] at h
    · simp [h]

@[simp] theorem ensureValid_factoryMap (env : Env) (fm : FactoryMap) :
    (fm.ensureValid env).m_factoryMap = fm.m_factoryMap := by
  unfold ensureValid
  split <;> simp

@[simp] theorem ensureValid_isValid (env : Env) (fm : FactoryMap) :
    (fm.ensureValid env).m_isValid = true := by
  unfold ensureValid
  split
  · assumption
  · simp

theorem ensureValid_of_valid (env : Env) {fm : FactoryMap} (h : fm.m_isValid = true) :
    fm.ensureValid env = fm := by
  simp [ensureValid, h]

@[simp] theorem ensureValid_ensureValid (env : Env) (fm : FactoryMap) :
    (fm.ensureValid env).ensureValid env = fm.ensureValid env :=
  ensureValid_of_valid env (ensureValid_isValid env fm)

/-- The factory returned for a name whose index entry and record are known. -/
theorem factory_of_owner {env : Env} {fm : FactoryMap} {name owner : String} {d : Data}
    (h1 : QMap.find (fm.ensureValid env).m_skinMap name = some owner)
    (h2 : QMap.find fm.m_factoryMap owner = some d) :
    (fm.factory env name).1 = (d.resolve env).factory := by
  have h2' : QMap.find (fm.ensureValid env).m_factoryMap owner = some d := by simpa using h2
  simp only [factory, h1, h2']

theorem factory_of_no_owner {env : Env} {fm : FactoryMap} {name : String}
    (h1 : QMap.find (fm.ensureValid env).m_skinMap name = none) :
    fm.factory env name = (none, fm.ensureValid env) := by
  simp only [factory, h1]

theorem mem_manualNames {env : Env} {e : String × Data} {y : String}
    (h : y ∈ manualNames env e) :
    ∃ f, e.2 = { loader := none, factory := some f } ∧ y ∈ env.factorySkinNames f := by
  obtain ⟨k, ⟨l, f⟩⟩ := e
  cases l <;> cases f <;> simp [manualNames] at h ⊢
  exact h

theorem mem_loaderNames {e : String × Data} {y : String} (h : y ∈ loaderNames e) :
    ∃ l, e.2.loader = some l ∧ y ∈ l.m_skinNames := by
  obtain ⟨k, ⟨l, f⟩⟩ := e
  cases l <;> simp [loaderNames] at h ⊢
  exact h

/-- In key order the first record satisfying `p` is the one with the least key
among those satisfying `p`. -/
theorem find?_least {m : QMap Data} (hm : QMap.WF m) (p : String × Data → Bool)
    {e : String × Data} (he : e ∈ m) (hp : p e = true)
    (hmin : ∀ x ∈ m, p x = true → qstringLess x.1 e.1 = false) :
    m.find? p = some e := by
  induction m with
  | nil => simp at he
  | cons x rest ih =>
    have hpw := List.pairwise_cons.1 hm
    rcases List.mem_cons.1 he with h | h
    · subst h
      simp [List.find?_cons, hp]
    · have hlt := hpw.1 e h
      have hx : p x = false := by
        cases hpx : p x with
        | false => rfl
        | true =>
          have := hmin x (List.mem_cons_self _ _) hpx
          simp [this] at hlt
      rw [List.find?_cons, hx]
      exact ih hpw.2 h (fun y hy => hmin y (List.mem_cons_of_mem _ hy))

/-! ## Lemmas: reachable states -/

/-- A valid index lists no name twice. -/
theorem reachable_valid_nodup {env : Env} {fm : FactoryMap} (h : fm.Reachable env) :
    fm.m_isValid = true → fm.m_skinNames.Nodup := by
  induction h with
  | init => intro h; simp at h
  | insertFactoryLoader loader _ ih =>
    unfold insertFactoryLoader
    simp only []
    split
    · intro h; simp at h
    · exact ih
  | insertFactory id f _ ih =>
    unfold insertFactory
    simp only []
    split
    · intro h; simp at h
    · exact ih
  | removeFactory id _ ih =>
    unfold removeFactory
    simp only []
    split
    · split
      · split
        · intro h; simp at h
        · exact ih
      · exact ih
    · exact ih
  | reset _ _ => intro _; simp [reset]
  | @factory fm0 name _ ih =>
    have hv : (fm0.ensureValid env).m_skinNames.Nodup := by
      unfold ensureValid
      split
      · rename_i hvalid
        exact ih hvalid
      · exact (rebuild_indexInv env fm0).1
    intro _
    unfold factory
    simp only []
    split
    · split
      · exact hv
      · exact hv
    · exact hv
  | @skinNames fm0 _ ih =>
    intro _
    unfold skinNames ensureValid
    simp only []
    split
    · rename_i hvalid
      exact ih hvalid
    · exact (rebuild_indexInv env fm0).1

end FactoryMap

/-! ## Lemmas: scanning keeps the factory table sorted and the index fresh -/

namespace QMap

theorem insert_self {α : Type} {m : QMap α} (hm : WF m) {k : String} {v : α}
    (h : find m k = some v) : insert m k v = m := by
  induction m with
  | nil => simp [find] at h
  | cons e rest ih =>
    obtain ⟨ke, ve⟩ := e
    have hp := List.pairwise_cons.1 hm
    by_cases h1 : ke = k
    · subst h1
      simp [find] at h
      simp [insert, qstringLess_irrefl, h]
    · simp [find, h1] at h
      have hmem := mem_of_find h
      have hlt := hp.1 _ hmem
      have h2 : qstringLess k ke = false := by
        cases hc : qstringLess k ke with
        | false => rfl
        | true =>
          have := qstringLess_trans hc hlt
          simp [qstringLess_irrefl] at this
      have h3 : ¬ k = ke := fun e => h1 e.symm
      simp [insert, h2, h3, ih hp.2 h]

end QMap

namespace FactoryMap

theorem wf_insertFactoryLoader {fm : FactoryMap} (h : QMap.WF fm.m_factoryMap)
    (l : FactoryLoader) : QMap.WF (fm.insertFactoryLoader l).m_factoryMap := by
  unfold insertFactoryLoader
  simp only []
  split <;> exact QMap.wf_insert h _ _

theorem fresh_insertFactoryLoader {env : Env} {fm : FactoryMap} (l : FactoryLoader)
    (h : fm.hasFactory l.m_factoryId = false) : (fm.insertFactoryLoader l).Fresh env := by
  have h1 : QMap.find fm.m_factoryMap l.m_factoryId = none := by
    simpa [hasFactory, QMap.contains] using h
  left
  simp [insertFactoryLoader, recordAt, h1]

end FactoryMap

namespace PrivateData

open FactoryMap

/-- What the scanner leaves intact of a manager: a sorted factory table and
an index that is not stale. -/
theorem registerPluginsStep_sound {env : Env} (path : String)
    (st : Option FactoryLoader × PrivateData) (fileName : String)
    (h : QMap.WF st.2.factoryMap.m_factoryMap ∧ st.2.factoryMap.Fresh env) :
    QMap.WF (registerPluginsStep env path st fileName).2.factoryMap.m_factoryMap ∧
      (registerPluginsStep env path st fileName).2.factoryMap.Fresh env := by
  unfold registerPluginsStep
  simp only []
  split
  · rename_i hc
    simp only [Bool.and_eq_true, Bool.not_eq_true'] at hc
    exact ⟨wf_insertFactoryLoader h.1 _, fresh_insertFactoryLoader _ hc.2⟩
  · exact h

theorem registerPluginsFold_sound {env : Env} (path : String) (files : List String)
    (st : Option FactoryLoader × PrivateData)
    (h : QMap.WF st.2.factoryMap.m_factoryMap ∧ st.2.factoryMap.Fresh env) :
    QMap.WF (files.foldl (registerPluginsStep env path) st).2.factoryMap.m_factoryMap ∧
      (files.foldl (registerPluginsStep env path) st).2.factoryMap.Fresh env := by
  induction files generalizing st with
  | nil => exact h
  | cons f fs ih => exact ih _ (registerPluginsStep_sound path st f h)

theorem registerPlugins_sound {env : Env} (d : PrivateData) (path : String)
    (h : QMap.WF d.factoryMap.m_factoryMap ∧ d.factoryMap.Fresh env) :
    QMap.WF (d.registerPlugins env path).factoryMap.m_factoryMap ∧
      (d.registerPlugins env path).factoryMap.Fresh env := by
  unfold registerPlugins
  exact registerPluginsFold_sound path _ _ h

theorem registerAll_sound {env : Env} (paths : List String) (d : PrivateData)
    (h : QMap.WF d.factoryMap.m_factoryMap ∧ d.factoryMap.Fresh env) :
    QMap.WF (paths.foldl (fun acc path => acc.registerPlugins env (path ++ "/skins"))
        d).factoryMap.m_factoryMap ∧
      (paths.foldl (fun acc path => acc.registerPlugins env (path ++ "/skins"))
        d).factoryMap.Fresh env := by
  induction paths generalizing d with
  | nil => exact h
  | cons p ps ih => exact ih _ (registerPlugins_sound d _ h)

theorem ensurePlugins_sound {env : Env} (d : PrivateData)
    (h : QMap.WF d.factoryMap.m_factoryMap ∧ d.factoryMap.Fresh env) :
    QMap.WF (d.ensurePlugins env).factoryMap.m_factoryMap ∧
      (d.ensurePlugins env).factoryMap.Fresh env := by
  unfold ensurePlugins
  split
  · exact h
  · exact registerAll_sound d.pluginPaths d h

end PrivateData

namespace FactoryMap

/-! ## Lemmas: resolving a name -/

theorem factory_ensureValid (env : Env) (fm : FactoryMap) (name : String) :
    (fm.ensureValid env).factory env name = fm.factory env name := by
  unfold factory
  rw [ensureValid_ensureValid]

theorem resolve_of_none {env : Env} {d : Data} (h : (d.resolve env).factory = none) :
    d.resolve env = d := by
  obtain ⟨l, f⟩ := d
  cases l <;> cases f <;> simp_all [Data.resolve, FactoryLoader.factory]

/-- A query that returns no factory changes nothing but the validity of the
index. -/
theorem factory_of_none {env : Env} {fm : FactoryMap} {name : String}
    (h : (fm.factory env name).1 = none) :
    fm.factory env name = (none, fm.ensureValid env) := by
  unfold factory at h ⊢
  simp only [] at h ⊢
  cases h1 : QMap.find (fm.ensureValid env).m_skinMap name with
  | none => simp
  | some o =>
    simp only [h1] at h ⊢
    cases h2 : QMap.find (fm.ensureValid env).m_factoryMap o with
    | none => simp
    | some dd =>
      simp only [h2] at h ⊢
      rw [resolve_of_none h, QMap.assign_self h2]
      have : dd.factory = none := by rw [← resolve_of_none h]; exact h
      rw [this]

/-- In an up-to-date index over a table whose loader-backed records resolve,
every name that has an owner resolves to a factory. -/
theorem factory_of_indexed {env : Env} {fm : FactoryMap} {name owner : String}
    (hwf : QMap.WF fm.m_factoryMap) (hfresh : fm.Fresh env)
    (hload : ∀ e ∈ fm.m_factoryMap, e.2.loader.isSome = true →
      (e.2.resolve env).factory.isSome = true)
    (h : QMap.find (fm.ensureValid env).m_skinMap name = some owner) :
    ∃ f, (fm.factory env name).1 = some f := by
  have h' := h
  rw [ensureValid_of_fresh hfresh, find_rebuild] at h'
  cases hf : fm.m_factoryMap.find? (fun e => decide (name ∈ manualNames env e)) with
  | some e =>
    have hmem := List.mem_of_find?_eq_some hf
    have hn : name ∈ manualNames env e := by simpa using List.find?_some hf
    obtain ⟨f, he, _⟩ := mem_manualNames hn
    have ho : e.1 = owner := by simpa [hf] using h'
    have hrec : QMap.find fm.m_factoryMap owner = some e.2 :=
      QMap.find_of_mem hwf (by rw [← ho]; exact hmem)
    refine ⟨f, ?_⟩
    rw [factory_of_owner h hrec, he]
    simp [Data.resolve]
  | none =>
    rw [hf] at h'
    simp only [Option.map_none', Option.none_or] at h'
    cases hg : fm.m_factoryMap.find? (fun e => decide (name ∈ loaderNames e)) with
    | none => simp [hg] at h'
    | some e =>
      have hmem := List.mem_of_find?_eq_some hg
      have hn : name ∈ loaderNames e := by simpa using List.find?_some hg
      obtain ⟨l, he, _⟩ := mem_loaderNames hn
      have ho : e.1 = owner := by simpa [hg] using h'
      have hrec : QMap.find fm.m_factoryMap owner = some e.2 :=
        QMap.find_of_mem hwf (by rw [← ho]; exact hmem)
      have hl := hload e hmem (by simp [he])
      obtain ⟨f, hf'⟩ := Option.isSome_iff_exists.1 hl
      exact ⟨f, by rw [factory_of_owner h hrec, hf']⟩

theorem fresh_ensureValid {env : Env} (fm : FactoryMap) (h : fm.Fresh env) :
    (fm.ensureValid env).Fresh env := by
  right
  rw [ensureValid_of_fresh h, rebuild_rebuild]

theorem indexInv_ensureValid {env : Env} (fm : FactoryMap) (h : fm.Fresh env) :
    (fm.ensureValid env).IndexInv := by
  rw [ensureValid_of_fresh h]
  exact rebuild_indexInv env fm

theorem skinNames_ensureValid (env : Env) (fm : FactoryMap) :
    (fm.ensureValid env).skinNames env =
      ((fm.ensureValid env).m_skinNames, fm.ensureValid env) := by
  unfold skinNames
  rw [ensureValid_ensureValid]

end FactoryMap

open QskSGNode QskBoxNode

/-! ## Lemmas: the child slots after `updateNode` -/

namespace QskBoxNode

theorem find_qskUpdateChildren (p : QskBoxNode) (role : Role) (node : Option SGNode)
    (r : Role) :
    findChildNode (qskUpdateChildren p role node) r =
      if r = role then node.map (fun n => setNodeRole n role) else findChildNode p r := rfl

/-- The slots after `updateNode` in terms of the local pointers. -/
theorem find_updateNode (env : SGEnv) (self : QskBoxNode) (inp : BoxInputs) (r : Role) :
    findChildNode (updateNode env self inp) r =
      (match r with
        | Role.ShadowRole => (updateLocals env self inp).shadowNode
        | Role.ShadowFillRole => (updateLocals env self inp).shadowFillNode
        | Role.BoxRole => (updateLocals env self inp).rectNode
        | Role.FillRole => (updateLocals env self inp).fillNode).map
        (fun n => setNodeRole n r) := by
  cases r <;> simp [updateNode, find_qskUpdateChildren]

@[simp] theorem updateBoxAndFill_shadowNode (env : SGEnv) (inp : BoxInputs) (b f : Bool)
    (s : Locals) : (updateBoxAndFill env inp b f s).shadowNode = s.shadowNode := by
  simp only [updateBoxAndFill]
  split_ifs <;> (try split) <;> rfl

@[simp] theorem updateBoxAndFill_shadowFillNode (env : SGEnv) (inp : BoxInputs) (b f : Bool)
    (s : Locals) : (updateBoxAndFill env inp b f s).shadowFillNode = s.shadowFillNode := by
  simp only [updateBoxAndFill]
  split_ifs <;> (try split) <;> rfl

@[simp] theorem updateShadow_rectNode (env : SGEnv) (inp : BoxInputs) (h : Bool)
    (s : Locals) : (updateShadow env inp h s).rectNode = s.rectNode := by
  simp only [updateShadow]
  split_ifs <;> rfl

@[simp] theorem updateShadow_fillNode (env : SGEnv) (inp : BoxInputs) (h : Bool)
    (s : Locals) : (updateShadow env inp h s).fillNode = s.fillNode := by
  simp only [updateShadow]
  split_ifs <;> rfl

/-- The hint of the node `qskNode` hands out is the hint the update calls
leave it with. -/
@[simp] theorem setNodeRole_hint (n : SGNode) (r : Role) :
    (setNodeRole n r).preferColoredGeometry = n.preferColoredGeometry := rfl

/-- The box and fill pointers after the branch of lines 100-122, entered with
a null fill pointer. -/
theorem updateBoxAndFill_nodes (env : SGEnv) (inp : BoxInputs) (b f : Bool) (s : Locals)
    (hfill : s.fillNode = none) (hrect : s.rectNode = none) :
    ((updateBoxAndFill env inp b f s).rectNode.isSome = (b || f)) ∧
      (∀ n, (updateBoxAndFill env inp b f s).rectNode = some n →
        n.preferColoredGeometry =
          (qskNode env s.self NodeClass.QskBoxRectangleNode Role.BoxRole).1.preferColoredGeometry) ∧
      ((updateBoxAndFill env inp b f s).fillNode.isSome =
        (b && f &&
          !((qskNode env s.self NodeClass.QskBoxRectangleNode
            Role.BoxRole).1.preferColoredGeometry && inp.combinedGeometrySupported))) := by
  obtain ⟨p, sn, sfn, rn, fn⟩ := s
  simp only at hfill hrect
  subst hfill hrect
  simp only [updateBoxAndFill]
  cases b <;> cases f <;> simp [SGNode.updateBox]
  cases h1 : (qskNode env p NodeClass.QskBoxRectangleNode Role.BoxRole).1.preferColoredGeometry <;>
    cases h2 : inp.combinedGeometrySupported <;>
    simp [h1, h2, SGNode.updateBox, SGNode.updateBorder]

/-! ## Lemmas: where the nodes of `updateNode` come from -/

theorem Origin.mono {self : QskBoxNode} {b b' : Nat} {r : Role} {node : Option SGNode}
    (h : Origin self b r node) (hb : b ≤ b') : Origin self b' r node := by
  intro n hn
  obtain ⟨h1, h2⟩ := h n hn
  exact ⟨h1, fun h0 => ⟨(h2 h0).1, lt_of_lt_of_le (h2 h0).2 hb⟩⟩

theorem origin_none (self : QskBoxNode) (b : Nat) (r : Role) : Origin self b r none := by
  intro n hn
  cases hn

/-- The node handed out by `qskNode`, after an update that keeps address and
class, and the allocation mark afterwards. -/
theorem origin_qskNode (env : SGEnv) {self p : QskBoxNode} (cls : NodeClass) (r : Role)
    (upd : SGNode → SGNode) (hupd : ∀ x, (upd x).addr = x.addr ∧ (upd x).nodeClass = x.nodeClass)
    (hslot : p.slot = self.slot) (hle : self.allocated ≤ p.allocated) :
    (qskNode env p cls r).2.slot = self.slot ∧
      Origin self (qskNode env p cls r).2.allocated r (some (upd (qskNode env p cls r).1)) ∧
      (qskNode env p cls r).2.allocated =
        p.allocated + created (self.slot r) (some (upd (qskNode env p cls r).1)) := by
  cases h : self.slot r with
  | some m =>
    have hp : p.slot r = some m := by rw [hslot, h]
    have hq : qskNode env p cls r = (m, p) := by simp [qskNode, findChildNode, hp]
    rw [hq]
    refine ⟨hslot, ?_, by simp [created]⟩
    intro n hn
    cases hn
    refine ⟨fun m' hm' => ?_, fun h0 => ?_⟩
    · rw [h] at hm'
      cases hm'
      exact hupd m
    · rw [h] at h0
      cases h0
  | none =>
    have hp : p.slot r = none := by rw [hslot, h]
    have hq : qskNode env p cls r =
        (setNodeRole { addr := p.allocated, nodeClass := cls,
                       preferColoredGeometry := env.preferColoredGeometry cls } r,
          { p with allocated := p.allocated + 1 }) := by
      simp [qskNode, findChildNode, hp]
    rw [hq]
    refine ⟨hslot, ?_, by simp [created]⟩
    intro n hn
    cases hn
    refine ⟨fun m' hm' => ?_, fun _ => ?_⟩
    · rw [h] at hm'
      cases hm'
    · rw [(hupd _).1]
      simp only [setNodeRole]
      exact ⟨hle, Nat.lt_succ_self _⟩

theorem le_of_tracks {self : QskBoxNode} {s : Locals} (h : Tracks self s) :
    self.allocated ≤ s.self.allocated := by
  rw [h.2.2.2.2.2]
  omega

theorem tracks_init (self : QskBoxNode) : Tracks self { self := self } :=
  ⟨rfl, origin_none _ _ _, origin_none _ _ _, origin_none _ _ _, origin_none _ _ _,
    by simp [created]⟩

theorem created_none (b : Option SGNode) : created b none = 0 := by simp [created]

theorem tracks_updateShadow (env : SGEnv) (inp : BoxInputs) (hs : Bool) {self : QskBoxNode}
    {s : Locals} (h : Tracks self s) (h1 : s.shadowNode = none) (h2 : s.shadowFillNode = none) :
    Tracks self (updateShadow env inp hs s) := by
  obtain ⟨hslot, o1, o2, o3, o4, hc⟩ := h
  have hle := le_of_tracks ⟨hslot, o1, o2, o3, o4, hc⟩
  rw [h1, h2, created_none, created_none] at hc
  unfold updateShadow
  split_ifs
  · obtain ⟨q1, q2, q3⟩ := origin_qskNode env NodeClass.QskBoxRectangleNode Role.ShadowFillRole
      (fun x => x.updateFilling true) (fun _ => ⟨rfl, rfl⟩) hslot hle
    have hb : s.self.allocated ≤
        (qskNode env s.self NodeClass.QskBoxRectangleNode Role.ShadowFillRole).2.allocated := by
      rw [q3]; omega
    refine ⟨q1, ?_, q2, o3.mono hb, o4.mono hb, ?_⟩
    · rw [h1]; exact origin_none _ _ _
    · simp only [h1, created_none]
      rw [q3, hc]
      omega
  · obtain ⟨q1, q2, q3⟩ := origin_qskNode env NodeClass.QskBoxShadowNode Role.ShadowRole
      (fun x => x.setShadowData) (fun _ => ⟨rfl, rfl⟩) hslot hle
    have hb : s.self.allocated ≤
        (qskNode env s.self NodeClass.QskBoxShadowNode Role.ShadowRole).2.allocated := by
      rw [q3]; omega
    refine ⟨q1, q2, ?_, o3.mono hb, o4.mono hb, ?_⟩
    · rw [h2]; exact origin_none _ _ _
    · simp only [h2, created_none]
      rw [q3, hc]
      omega
  · exact ⟨hslot, o1, o2, o3, o4, by rw [h1, h2, created_none, created_none]; exact hc⟩

/-- The three ways through lines 100-122, entered with null box and fill
pointers: nothing to draw, a box node alone, a box node and a fill node. -/
theorem updateBoxAndFill_cases (env : SGEnv) (inp : BoxInputs) (b f : Bool) (s : Locals)
    (hrect : s.rectNode = none) (hfill : s.fillNode = none) :
    updateBoxAndFill env inp b f s = s ∨
      updateBoxAndFill env inp b f s =
        { s with
          self := (qskNode env s.self NodeClass.QskBoxRectangleNode Role.BoxRole).2
          rectNode :=
            some (qskNode env s.self NodeClass.QskBoxRectangleNode Role.BoxRole).1.updateBox } ∨
      updateBoxAndFill env inp b f s =
        { s with
          self := (qskNode env
            (qskNode env s.self NodeClass.QskBoxRectangleNode Role.BoxRole).2
            NodeClass.QskBoxRectangleNode Role.FillRole).2
          rectNode :=
            some (qskNode env s.self NodeClass.QskBoxRectangleNode Role.BoxRole).1.updateBorder
          fillNode := some ((qskNode env
            (qskNode env s.self NodeClass.QskBoxRectangleNode Role.BoxRole).2
            NodeClass.QskBoxRectangleNode Role.FillRole).1.updateFilling false) } := by
  obtain ⟨p, sn, sfn, rn, fn⟩ := s
  simp only at hrect hfill
  subst hrect hfill
  simp only [updateBoxAndFill]
  split_ifs
  · right; right; rfl
  · right; left; rfl
  · right; left; rfl
  · left; rfl

theorem tracks_updateBoxAndFill (env : SGEnv) (inp : BoxInputs) (b f : Bool)
    {self : QskBoxNode} {s : Locals} (h : Tracks self s) (h3 : s.rectNode = none)
    (h4 : s.fillNode = none) : Tracks self (updateBoxAndFill env inp b f s) := by
  obtain ⟨hslot, o1, o2, o3, o4, hc⟩ := h
  have hle := le_of_tracks ⟨hslot, o1, o2, o3, o4, hc⟩
  rw [h3, h4, created_none, created_none] at hc
  obtain ⟨q1, q2, q3⟩ := origin_qskNode env NodeClass.QskBoxRectangleNode Role.BoxRole
    (fun x => x.updateBox) (fun _ => ⟨rfl, rfl⟩) hslot hle
  obtain ⟨q1', q2', q3'⟩ := origin_qskNode env NodeClass.QskBoxRectangleNode Role.BoxRole
    (fun x => x.updateBorder) (fun _ => ⟨rfl, rfl⟩) hslot hle
  have hb : s.self.allocated ≤
      (qskNode env s.self NodeClass.QskBoxRectangleNode Role.BoxRole).2.allocated := by
    rw [q3]; omega
  rcases updateBoxAndFill_cases env inp b f s h3 h4 with hu | hu | hu
  · rw [hu]
    exact ⟨hslot, o1, o2, o3, o4, by rw [h3, h4, created_none, created_none]; exact hc⟩
  · rw [hu]
    refine ⟨q1, o1.mono hb, o2.mono hb, q2, ?_, ?_⟩
    · rw [h4]; exact origin_none _ _ _
    · simp only [h4, created_none]
      rw [q3, hc]
      omega
  · rw [hu]
    obtain ⟨r1, r2, r3⟩ := origin_qskNode env NodeClass.QskBoxRectangleNode Role.FillRole
      (fun x => x.updateFilling false) (fun _ => ⟨rfl, rfl⟩) q1 (le_trans hle hb)
    have hb2 : (qskNode env s.self NodeClass.QskBoxRectangleNode Role.BoxRole).2.allocated ≤
        (qskNode env (qskNode env s.self NodeClass.QskBoxRectangleNode Role.BoxRole).2
          NodeClass.QskBoxRectangleNode Role.FillRole).2.allocated := by
      rw [r3]; omega
    refine ⟨r1, o1.mono (le_trans hb hb2), o2.mono (le_trans hb hb2), q2'.mono hb2, r2, ?_⟩
    simp only
    rw [r3, q3', hc]
    have e : created (self.slot Role.BoxRole)
        (some ((fun x => x.updateBorder)
          (qskNode env s.self NodeClass.QskBoxRectangleNode Role.BoxRole).1)) =
        created (self.slot Role.BoxRole)
          (some (qskNode env s.self NodeClass.QskBoxRectangleNode Role.BoxRole).1.updateBorder) :=
      rfl
    rw [e]
    omega

/-- The local pointers of `updateNode` hold reused nodes or nodes created in
the call. -/
theorem tracks_updateLocals (env : SGEnv) (self : QskBoxNode) (inp : BoxInputs) :
    Tracks self (updateLocals env self inp) := by
  unfold updateLocals
  simp only []
  split_ifs
  · refine tracks_updateBoxAndFill env inp _ _
      (tracks_updateShadow env inp _ (tracks_init self) rfl rfl) ?_ ?_
    · simp
    · simp
  · exact tracks_init self

theorem updateNode_allocated (env : SGEnv) (self : QskBoxNode) (inp : BoxInputs) :
    (updateNode env self inp).allocated = (updateLocals env self inp).self.allocated := rfl

end QskBoxNode

/-! ## Lemmas: sequences of registrations -/

theorem qstringLess_asymm {a b : String} (h : qstringLess a b = true) :
    qstringLess b a = false := by
  cases hc : qstringLess b a with
  | false => rfl
  | true =>
    have := qstringLess_trans h hc
    simp [qstringLess_irrefl] at this

namespace QMap

/-- Insertions under different keys commute. -/
theorem insert_comm {α : Type} (m : QMap α) {a b : String} (hab : a ≠ b) (va vb : α) :
    insert (insert m a va) b vb = insert (insert m b vb) a va := by
  have hba : b ≠ a := fun e => hab e.symm
  induction m with
  | nil =>
    cases h1 : qstringLess a b with
    | true =>
      have h2 := qstringLess_asymm h1
      simp [insert, h1, h2, hab, hba]
    | false =>
      have h2 := qstringLess_of_not h1 hab
      simp [insert, h1, h2, hab, hba]
  | cons e rest ih =>
    obtain ⟨k, v⟩ := e
    cases hak : qstringLess a k with
    | true =>
      have hka : a ≠ k := fun e => by rw [e, qstringLess_irrefl] at hak; cases hak
      cases hbk : qstringLess b k with
      | true =>
        have hkb : b ≠ k := fun e => by rw [e, qstringLess_irrefl] at hbk; cases hbk
        cases h1 : qstringLess a b with
        | true =>
          have h2 := qstringLess_asymm h1
          simp [insert, hak, hbk, h1, h2, hab, hba]
        | false =>
          have h2 := qstringLess_of_not h1 hab
          simp [insert, hak, hbk, h1, h2, hab, hba]
      | false =>
        by_cases hkb : b = k
        · subst hkb
          have h2 := qstringLess_asymm hak
          simp [insert, hak, h2, hab, hba, qstringLess_irrefl]
        · have hkb' := qstringLess_of_not hbk hkb
          have h1 := qstringLess_trans hak hkb'
          have h2 := qstringLess_asymm h1
          simp [insert, hak, hbk, hkb, h1, h2, hab, hba]
    | false =>
      by_cases hka : a = k
      · subst hka
        cases hbk : qstringLess b a with
        | true =>
          have h2 := qstringLess_asymm hbk
          simp [insert, hbk, h2, hab, hba, qstringLess_irrefl]
        | false =>
          have h2 := qstringLess_of_not hbk hba
          simp [insert, hbk, hab, hba, qstringLess_irrefl]
      · have hka' := qstringLess_of_not hak hka
        cases hbk : qstringLess b k with
        | true =>
          have h1 := qstringLess_trans hbk hka'
          have h2 := qstringLess_asymm h1
          have hkb : b ≠ k := fun e => by rw [e, qstringLess_irrefl] at hbk; cases hbk
          simp [insert, hak, hbk, hka, h1, h2, hab, hba]
        | false =>
          by_cases hkb : b = k
          · subst hkb
            simp [insert, hak, hka, hab, hba, qstringLess_irrefl]
          · simp [insert, hak, hbk, hka, hkb, ih]

end QMap

namespace FactoryMap

theorem insertCall_eq (fm : FactoryMap) (c : InsertCall) :
    fm.insertCall c =
      { m_factoryMap :=
          QMap.insert fm.m_factoryMap c.factoryId (c.record (fm.recordAt c.factoryId))
        m_skinMap := if c.changes (fm.recordAt c.factoryId) then [] else fm.m_skinMap
        m_skinNames :=
          if c.changes (fm.recordAt c.factoryId) && c.clearsNames then [] else fm.m_skinNames
        m_isValid :=
          if c.changes (fm.recordAt c.factoryId) then false else fm.m_isValid } := by
  cases c with
  | loader l =>
    simp only [insertCall, insertFactoryLoader, InsertCall.factoryId, InsertCall.changes,
      InsertCall.record, InsertCall.clearsNames]
    split_ifs <;> simp_all
  | manual k f =>
    simp only [insertCall, insertFactory, InsertCall.factoryId, InsertCall.changes,
      InsertCall.record, InsertCall.clearsNames]
    split_ifs <;> simp_all

theorem recordAt_insertCall (fm : FactoryMap) (c : InsertCall) {k : String}
    (h : c.factoryId ≠ k) : (fm.insertCall c).recordAt k = fm.recordAt k := by
  rw [insertCall_eq]
  simp [recordAt, QMap.find_insert, h]

/-- Two calls with different factory ids commute. -/
theorem insertCall_comm (fm : FactoryMap) (x y : InsertCall)
    (h : x.factoryId ≠ y.factoryId) :
    (fm.insertCall x).insertCall y = (fm.insertCall y).insertCall x := by
  rw [insertCall_eq (fm.insertCall x) y, insertCall_eq (fm.insertCall y) x,
    recordAt_insertCall fm x h, recordAt_insertCall fm y (Ne.symm h)]
  rw [insertCall_eq fm x, insertCall_eq fm y]
  simp only []
  rw [QMap.insert_comm _ h]
  cases x.changes (fm.recordAt x.factoryId) <;> cases y.changes (fm.recordAt y.factoryId) <;>
    cases x.clearsNames <;> cases y.clearsNames <;> simp

/-- The state after a sequence of calls with pairwise different factory ids
does not depend on the order of the calls. -/
theorem insertAll_perm (fm : FactoryMap) {calls1 calls2 : List InsertCall}
    (hperm : calls1.Perm calls2) (hids : (calls1.map InsertCall.factoryId).Nodup) :
    fm.insertAll calls1 = fm.insertAll calls2 := by
  unfold insertAll
  apply List.Perm.foldl_eq' hperm
  intro x hx y hy z
  by_cases hxy : x = y
  · rw [hxy]
  · have hne : x.factoryId ≠ y.factoryId := fun e =>
      hxy (List.inj_on_of_nodup_map hids hx hy e)
    exact insertCall_comm z x y hne

theorem wf_insertCall {fm : FactoryMap} (h : QMap.WF fm.m_factoryMap) (c : InsertCall) :
    QMap.WF (fm.insertCall c).m_factoryMap := by
  rw [insertCall_eq]
  exact QMap.wf_insert h _ _

theorem invalid_insertCall {fm : FactoryMap} (h : fm.m_isValid = false) (c : InsertCall) :
    (fm.insertCall c).m_isValid = false := by
  rw [insertCall_eq]
  simp [h]

theorem insertAll_sound {fm : FactoryMap} (calls : List InsertCall)
    (h : QMap.WF fm.m_factoryMap ∧ fm.m_isValid = false) :
    QMap.WF (fm.insertAll calls).m_factoryMap ∧ (fm.insertAll calls).m_isValid = false := by
  unfold insertAll
  induction calls generalizing fm with
  | nil => exact h
  | cons c cs ih => exact ih ⟨wf_insertCall h.1 c, invalid_insertCall h.2 c⟩

end FactoryMap

open FactoryMap

/-! ## C1 -/

/-- C1 fails on the code: the factories at the addresses 2 and 3 are
registered under `m` and `0`, the plugins `a` and `b` are scanned, and all of
them advertise `Y`; the query enters `0` as the owner of `Y`.  After
`unregisterFactory( "0" )` the record `m` is the only manual record that
advertises `Y` and the loader-backed record `a` advertises it too, but the
index is still valid and still names `0`: `factory( "Y" )` finds no record
and returns null, and `createSkin( "Y" )` yields no skin. -/
theorem C1_stale_index_hides_manual :
    QMap.WF sampleStale.factoryMap.m_factoryMap ∧
      ("m", ({ loader := none, factory := some 2 } : Data)) ∈
        sampleStale.factoryMap.m_factoryMap ∧
      "Y" ∈ staleEnv.factorySkinNames 2 ∧
      (∀ e ∈ sampleStale.factoryMap.m_factoryMap, "Y" ∈ manualNames staleEnv e → e.1 = "m") ∧
      ("a", ({ loader := some sampleLoaderA, factory := none } : Data)) ∈
        sampleStale.factoryMap.m_factoryMap ∧
      "Y" ∈ sampleLoaderA.m_skinNames ∧
      sampleStale.factoryMap.m_isValid = true ∧
      QMap.find sampleStale.factoryMap.m_skinMap "Y" = some "0" ∧
      QMap.find sampleStale.factoryMap.m_factoryMap "0" = none ∧
      (sampleStale.factoryMap.factory staleEnv "Y").1 = none ∧
      (createSkin staleEnv sampleStale "Y").1 = none := by
  decide

/-- Where the name index is invalid (and rebuilt by the query) or up to date,
a factory map that holds a manual record `A` under `a`, the only manual
record advertising `X`, and a loader-backed record under another id `b` that
advertises `X` too, resolves `X` to the factory of `A` and enters `a` as the
owner of `X`, for all ids and however the table was filled. -/
theorem manual_precedes_loader (env : Env) (fm : FactoryMap) (a b X : String)
    (A : QskSkinFactory) (lb : FactoryLoader) (fb : Option QskSkinFactory)
    (hwf : QMap.WF fm.m_factoryMap) (hfresh : fm.Fresh env)
    (hA : (a, ({ loader := none, factory := some A } : Data)) ∈ fm.m_factoryMap)
    (hAX : X ∈ env.factorySkinNames A)
    (hOnly : ∀ e ∈ fm.m_factoryMap, X ∈ manualNames env e → e.1 = a)
    (_hB : (b, ({ loader := some lb, factory := fb } : Data)) ∈ fm.m_factoryMap)
    (_hBX : X ∈ lb.m_skinNames) (_hab : a ≠ b) :
    (fm.factory env X).1 = some A ∧
      QMap.find (fm.factory env X).2.m_skinMap X = some a := by
  have hown : QMap.find (fm.ensureValid env).m_skinMap X = some a := by
    rw [ensureValid_of_fresh hfresh, find_rebuild]
    cases hf : fm.m_factoryMap.find? (fun e => decide (X ∈ manualNames env e)) with
    | none =>
      have h1 := List.find?_eq_none.1 hf _ hA
      simp [manualNames] at h1
      exact absurd hAX h1
    | some e =>
      have h1 : X ∈ manualNames env e := by simpa using List.find?_some hf
      have h2 := hOnly e (List.mem_of_find?_eq_some hf) h1
      simp [h2]
  have hrec := QMap.find_of_mem hwf hA
  refine ⟨?_, ?_⟩
  · rw [factory_of_owner hown hrec]
    simp [Data.resolve]
  · simp only [factory, hown]
    have h2' : QMap.find (fm.ensureValid env).m_factoryMap a =
        some { loader := none, factory := some A } := by simpa using hrec
    simp only [h2']
    exact hown

/-- A manual factory `m` and a plugin `a` both advertise `Y`; the query
returns the manual factory, at address 2. -/
theorem manual_precedes_loader_sample :
    (sampleMapMixed.factory sampleEnv "Y").1 = some 2 ∧
      QMap.find (sampleMapMixed.factory sampleEnv "Y").2.m_skinMap "Y" = some "m" :=
  manual_precedes_loader sampleEnv sampleMapMixed "m" "a" "Y" 2 sampleLoaderA none
    (by decide) (by decide) (by decide) (by decide) (by decide) (by decide) (by decide)
    (by decide)

/-! ## C3 -/

/-- C3, as the claim states it, fails: the loader with id `b` was inserted
first and the loader with id `a` second, both advertise `Y` and there is no
manual record, yet `Y` is owned by `a` and resolves to the factory of the
second loader, not to that of the first. -/
theorem C3_first_inserted_counterexample :
    sampleMapBA =
        (({} : FactoryMap).insertFactoryLoader sampleLoaderB).insertFactoryLoader sampleLoaderA ∧
      "Y" ∈ sampleLoaderB.m_skinNames ∧ "Y" ∈ sampleLoaderA.m_skinNames ∧
      (∀ e ∈ sampleMapBA.m_factoryMap, manualNames sampleEnv e = []) ∧
      QMap.find (sampleMapBA.factory sampleEnv "Y").2.m_skinMap "Y" = some "a" ∧
      (sampleMapBA.factory sampleEnv "Y").1 = sampleLoaderA.factory sampleEnv ∧
      (sampleMapBA.factory sampleEnv "Y").1 ≠ sampleLoaderB.factory sampleEnv := by
  decide

/-- C3, amended: in a factory map with a sorted table whose name index is
invalid (and rebuilt by the query) or up to date, of two records `a` and `b`
of one group that both advertise `Y`, where no record of an earlier group
advertises `Y` and no record of the group with an id below `a` does, the
record with the smaller id `a`, in the order of `QString`, owns `Y`,
whichever was inserted first, and `Y` resolves to its factory. -/
theorem C3_smaller_id_owns (env : Env) (fm : FactoryMap) (g : Group) (a b Y : String)
    (da db : Data)
    (hwf : QMap.WF fm.m_factoryMap) (hfresh : fm.Fresh env)
    (ha : (a, da) ∈ fm.m_factoryMap) (_hb : (b, db) ∈ fm.m_factoryMap)
    (haY : Y ∈ g.names env (a, da)) (_hbY : Y ∈ g.names env (b, db))
    (_hab : qstringLess a b = true)
    (hEarlier : g = Group.loader → ∀ e ∈ fm.m_factoryMap, Y ∉ manualNames env e)
    (hLeast : ∀ e ∈ fm.m_factoryMap, Y ∈ g.names env e → qstringLess e.1 a = false) :
    QMap.find (fm.factory env Y).2.m_skinMap Y = some a ∧
      (fm.factory env Y).1 = (da.resolve env).factory := by
  have hown : QMap.find (fm.ensureValid env).m_skinMap Y = some a := by
    rw [ensureValid_of_fresh hfresh, find_rebuild]
    cases g with
    | manual =>
      have h1 := find?_least hwf (fun e => decide (Y ∈ manualNames env e)) ha
        (by simpa [Group.names] using haY)
        (fun x hx hp => hLeast x hx (by simpa [Group.names] using hp))
      simp [h1]
    | loader =>
      have h0 : fm.m_factoryMap.find? (fun e => decide (Y ∈ manualNames env e)) = none := by
        apply List.find?_eq_none.2
        intro x hx
        simpa using hEarlier rfl x hx
      have h1 := find?_least hwf (fun e => decide (Y ∈ loaderNames e)) ha
        (by simpa [Group.names] using haY)
        (fun x hx hp => hLeast x hx (by simpa [Group.names] using hp))
      simp [h0, h1]
  have hrec := QMap.find_of_mem hwf ha
  have hrec' : QMap.find (fm.ensureValid env).m_factoryMap a = some da := by simpa using hrec
  refine ⟨?_, factory_of_owner hown hrec⟩
  simp only [factory, hown, hrec']

/-- The loader `a`, inserted after the loader `b`, owns `Y`. -/
theorem C3_smaller_id_owns_witness :
    QMap.find (sampleMapBA.factory sampleEnv "Y").2.m_skinMap "Y" = some "a" ∧
      (sampleMapBA.factory sampleEnv "Y").1 = some 102 :=
  C3_smaller_id_owns sampleEnv sampleMapBA Group.loader "a" "b" "Y"
    { loader := some sampleLoaderA } { loader := some sampleLoaderB }
    (by decide) (by decide) (by decide) (by decide) (by decide) (by decide) (by decide)
    (by decide) (by decide)

/-! ## C4 -/

/-- C4: in every state reachable through the public methods of the factory
map (`insertFactory` in both forms, `removeFactory`, `reset`, and the queries
between them) the list returned by `skinNames()` holds no name twice. -/
theorem C4_skinNames_nodup (env : Env) (fm : FactoryMap) (h : fm.Reachable env) :
    (fm.skinNames env).1.Nodup := by
  unfold FactoryMap.skinNames ensureValid
  simp only []
  split
  · rename_i hvalid
    exact reachable_valid_nodup h hvalid
  · exact (rebuild_indexInv env fm).1

/-- One factory registered under two ids and two plugins, all advertising `Y`:
the state is reachable and `Y` is listed once. -/
theorem C4_skinNames_nodup_witness :
    sampleMapShared.Reachable sampleEnv ∧
      (sampleMapShared.skinNames sampleEnv).1 = ["X", "Y", "Z"] ∧
      (sampleMapShared.skinNames sampleEnv).1.Nodup :=
  have hr : sampleMapShared.Reachable sampleEnv :=
    Reachable.insertFactoryLoader sampleLoaderB
      (Reachable.insertFactoryLoader sampleLoaderA
        (Reachable.insertFactory "n" (some 2)
          (Reachable.insertFactory "m" (some 2) Reachable.init)))
  ⟨hr, by decide, C4_skinNames_nodup sampleEnv sampleMapShared hr⟩

/-! ## C2 -/

/-- C2 fails on the code: the factory `f` owns `Alpha` and `Beta` in a valid
index; after `unregisterFactory( "F" )` the table is empty and a rebuild over
the remaining records lists nothing, yet the index is still valid and
`skinNames()` returns the stale `Alpha`, `Beta`. -/
theorem C2_stale_names_after_remove :
    sampleQueried.factoryMap.m_isValid = true ∧
      QMap.find sampleQueried.factoryMap.m_skinMap "Alpha" = some "f" ∧
      (unregisterFactory sampleEnv sampleQueried "F").factoryMap.m_factoryMap = [] ∧
      ((unregisterFactory sampleEnv sampleQueried "F").factoryMap.rebuild sampleEnv).m_skinNames
        = [] ∧
      (unregisterFactory sampleEnv sampleQueried "F").factoryMap.m_isValid = true ∧
      (skinNames sampleEnv (unregisterFactory sampleEnv sampleQueried "F")).1
        = ["Alpha", "Beta"] := by
  decide

/-! ## C5 -/

/-- C5, as the claim states it, fails: a manager whose factory map holds one
factory that advertises no skin yields absent for every name. -/
theorem C5_factory_without_skin_counterexample :
    sampleNoSkin.factoryMap.m_factoryMap = [("empty", { loader := none, factory := some 7 })] ∧
      (createSkin sampleEnv sampleNoSkin "Alpha").1 = none ∧
      (createSkin sampleEnv sampleNoSkin "").1 = none := by
  decide

/-- C5, amended: in a manager with a sorted factory table and an index that
is not stale, whose loader-backed records resolve to a factory, `createSkin`
asks some factory for a skin, for every name, as soon as the skin-name list is
non-empty, and yields absent without a call of a factory when the list is
empty (as it is when the factory map holds no factory). -/
theorem C5_createSkin_resolves (env : Env) (d : PrivateData) (skinName : String)
    (hwf : QMap.WF d.factoryMap.m_factoryMap) (hfresh : d.factoryMap.Fresh env)
    (hload : ∀ e ∈ (d.ensurePlugins env).factoryMap.m_factoryMap, e.2.loader.isSome = true →
      (e.2.resolve env).factory.isSome = true) :
    ((skinNames env d).1 ≠ [] → ∃ f name, (createSkin env d skinName).1 = some (f, name)) ∧
      ((skinNames env d).1 = [] → (createSkin env d skinName).1 = none) ∧
      ((d.ensurePlugins env).factoryMap.m_factoryMap = [] → (skinNames env d).1 = []) := by
  obtain ⟨hwf1, hfresh1⟩ := PrivateData.ensurePlugins_sound d ⟨hwf, hfresh⟩
  have hinv := indexInv_ensureValid _ hfresh1
  have hnames : (skinNames env d).1 = ((d.ensurePlugins env).factoryMap.ensureValid env).m_skinNames :=
    rfl
  rw [hnames]
  refine ⟨?_, ?_, ?_⟩
  · intro hne
    unfold createSkin
    simp only []
    cases h1 : ((d.ensurePlugins env).factoryMap.factory env skinName).1 with
    | some f => exact ⟨f, skinName, rfl⟩
    | none =>
      simp only []
      rw [factory_of_none h1, skinNames_ensureValid]
      simp only []
      cases hn : ((d.ensurePlugins env).factoryMap.ensureValid env).m_skinNames with
      | nil => exact absurd hn hne
      | cons n0 rest =>
        simp only []
        have hmem : n0 ∈ ((d.ensurePlugins env).factoryMap.ensureValid env).m_skinNames := by
          rw [hn]; exact List.mem_cons_self _ _
        have hc := (hinv.2 n0).1 hmem
        obtain ⟨o, ho⟩ := Option.isSome_iff_exists.1 hc
        obtain ⟨f, hf⟩ := factory_of_indexed hwf1 hfresh1 hload ho
        rw [factory_ensureValid, hf]
        exact ⟨f, n0, rfl⟩
  · intro hnil
    have hno : ∀ n, QMap.find ((d.ensurePlugins env).factoryMap.ensureValid env).m_skinMap n
        = none := by
      intro n
      cases hf : QMap.find ((d.ensurePlugins env).factoryMap.ensureValid env).m_skinMap n with
      | none => rfl
      | some o =>
        have := (hinv.2 n).2 (by simp [QMap.contains, hf])
        rw [hnil] at this
        simp at this
    unfold createSkin
    simp only []
    rw [factory_of_no_owner (hno skinName)]
    simp only []
    rw [skinNames_ensureValid]
    simp only [hnil]
  · intro hempty
    rw [ensureValid_of_fresh hfresh1, rebuild_eq, hempty]
    rfl

/-- The manager that scanned `/p/skins` lists `Y` and `Z` and resolves the
unknown name through the plugin `a`. -/
theorem C5_createSkin_resolves_witness :
    (skinNames sampleEnv sampleScanned).1 ≠ [] ∧
      ∃ f name, (createSkin sampleEnv sampleScanned "unknown").1 = some (f, name) :=
  ⟨by decide,
    (C5_createSkin_resolves sampleEnv sampleScanned "unknown" (by decide) (by decide)
      (by decide)).1 (by decide)⟩

/-! ## C6 -/

/-- C6: when the skin-name list starts with `n0` and the index has no owner
for `name`, `createSkin( name )` and `createSkin( n0 )` agree in the factory
asked, in the name passed to it, which is `n0`, and in the state left
behind. -/
theorem C6_unknown_name_falls_back (env : Env) (d : PrivateData) (name n0 : String)
    (rest : List String)
    (hnames : (skinNames env d).1 = n0 :: rest)
    (hunknown : QMap.find (skinNames env d).2.factoryMap.m_skinMap name = none) :
    createSkin env d name = createSkin env d n0 ∧
      (createSkin env d name).1 =
        ((skinNames env d).2.factoryMap.factory env n0).1.map (fun f => (f, n0)) := by
  have hn : ((d.ensurePlugins env).factoryMap.ensureValid env).m_skinNames = n0 :: rest := hnames
  have hu : QMap.find ((d.ensurePlugins env).factoryMap.ensureValid env).m_skinMap name = none :=
    hunknown
  have hfm : (skinNames env d).2.factoryMap = (d.ensurePlugins env).factoryMap.ensureValid env :=
    rfl
  rw [hfm]
  have hleft : createSkin env d name =
      ((((d.ensurePlugins env).factoryMap.ensureValid env).factory env n0).1.map
          (fun f => (f, n0)),
        { d.ensurePlugins env with
          factoryMap := (((d.ensurePlugins env).factoryMap.ensureValid env).factory env n0).2 }) := by
    unfold createSkin
    simp only []
    rw [factory_of_no_owner hu]
    simp only []
    rw [skinNames_ensureValid]
    simp only [hn]
  refine ⟨?_, by rw [hleft]⟩
  rw [hleft]
  unfold createSkin
  simp only []
  rw [← factory_ensureValid env (d.ensurePlugins env).factoryMap n0]
  cases h1 : (((d.ensurePlugins env).factoryMap.ensureValid env).factory env n0).1 with
  | some f => rfl
  | none =>
    simp only []
    have h2 := factory_of_none h1
    rw [ensureValid_ensureValid] at h2
    rw [h2]
    simp only []
    rw [skinNames_ensureValid]
    simp only [hn]
    rw [h2]

/-- With the single factory `f` advertising `Alpha` and `Beta`, an unknown
name gives what `Alpha` gives: the factory at address 1 asked for `Alpha`. -/
theorem C6_unknown_name_falls_back_witness :
    createSkin sampleEnv sampleQueried "unknown" = createSkin sampleEnv sampleQueried "Alpha" ∧
      (createSkin sampleEnv sampleQueried "unknown").1 = some (1, "Alpha") :=
  have h := C6_unknown_name_falls_back sampleEnv sampleQueried "unknown" "Alpha" ["Beta"]
    (by decide) (by decide)
  ⟨h.1, h.2.trans (by decide)⟩

/-! ## Lemmas: the search path set -/

theorem startsWith_self (s : List Char) : startsWith s s = true := by
  induction s with
  | nil => rfl
  | cons c s ih => simp [startsWith, ih]

theorem qstringContains_self (s : String) : qstringContains s s = true := by
  unfold qstringContains
  cases h : s.data with
  | nil => rfl
  | cons c cs => simp [occursIn, startsWith_self]

/-- The call `addPluginPath` changes nothing, whatever the path. -/
theorem addPluginPath_eq (env : Env) (d : PrivateData) (path : String) :
    addPluginPath env d path = d := by
  simp [addPluginPath, qstringContains_self]

/-- When the path list canonicalizes to a non-empty list, `setPluginPaths`
resets the factory map and clears the flag. -/
theorem setPluginPaths_reset (env : Env) (d : PrivateData) (paths : List String)
    (h : (paths.foldl (setPluginPathsStep env) ([], [])).2 ≠ []) :
    (setPluginPaths env d paths).factoryMap.m_factoryMap = [] ∧
      (setPluginPaths env d paths).pluginsRegistered = false := by
  simp [setPluginPaths, h, FactoryMap.reset]

/-- Removing a path whose canonical form is in the set, with the plugins
registered, resets the factory map and clears the flag. -/
theorem removePluginPath_reset (env : Env) (d : PrivateData) (path : String)
    (hreg : d.pluginsRegistered = true) (h : qskResolvedPath env path ∈ d.pluginPaths) :
    (removePluginPath env d path).factoryMap.m_factoryMap = [] ∧
      (removePluginPath env d path).pluginsRegistered = false := by
  simp [removePluginPath, h, hreg, FactoryMap.reset]

theorem mem_keepFirst (xs : List String) (y : String) : y ∈ keepFirst xs ↔ y ∈ xs := by
  induction xs with
  | nil => simp [keepFirst]
  | cons x xs ih =>
    simp only [keepFirst, List.mem_cons, List.mem_filter, ih, decide_eq_true_eq]
    by_cases h : y = x <;> simp [h]

theorem nodup_keepFirst (xs : List String) : (keepFirst xs).Nodup := by
  induction xs with
  | nil => simp [keepFirst]
  | cons x xs ih =>
    simp only [keepFirst, List.nodup_cons]
    exact ⟨by simp [List.mem_filter], ih.filter _⟩

theorem specPluginPaths_cons_empty (env : Env) (p : String) (ps : List String)
    (h : env.canonicalPath p = "") : specPluginPaths env (p :: ps) = specPluginPaths env ps := by
  simp [specPluginPaths, h]

theorem specPluginPaths_cons (env : Env) (p : String) (ps : List String)
    (h : env.canonicalPath p ≠ "") :
    specPluginPaths env (p :: ps) =
      env.canonicalPath p ::
        (specPluginPaths env ps).filter (fun y => y ≠ env.canonicalPath p) := by
  simp [specPluginPaths, h, keepFirst]

/-- The loop of `setPluginPaths`, started with a set `seen` that holds what
the list `acc` holds. -/
theorem setPluginPathsLoop (env : Env) (paths : List String) (seen acc : List String)
    (h : ∀ x, x ∈ seen ↔ x ∈ acc) :
    (paths.foldl (setPluginPathsStep env) (seen, acc)).2 =
      acc ++ (specPluginPaths env paths).filter (fun x => x ∉ acc) := by
  induction paths generalizing seen acc with
  | nil => simp [specPluginPaths, keepFirst]
  | cons p ps ih =>
    simp only [List.foldl_cons]
    by_cases h1 : env.canonicalPath p = ""
    · have hemp : (env.canonicalPath p).isEmpty = true := (String.isEmpty_iff _).2 h1
      have hs : setPluginPathsStep env (seen, acc) p = (seen, acc) := by
        simp [setPluginPathsStep, qskResolvedPath, hemp]
      rw [hs, ih seen acc h, specPluginPaths_cons_empty env p ps h1]
    · have hne : (env.canonicalPath p).isEmpty = false := by
        cases hc : (env.canonicalPath p).isEmpty with
        | false => rfl
        | true => exact absurd ((String.isEmpty_iff _).1 hc) h1
      rw [specPluginPaths_cons env p ps h1]
      by_cases h2 : env.canonicalPath p ∈ seen
      · have hs : setPluginPathsStep env (seen, acc) p = (seen, acc) := by
          simp [setPluginPathsStep, qskResolvedPath, h2]
        rw [hs, ih seen acc h]
        have h3 : env.canonicalPath p ∈ acc := (h _).1 h2
        rw [List.filter_cons_of_neg (by simpa using h3), List.filter_filter]
        congr 1
        apply List.filter_congr
        intro x _
        by_cases hx : x ∈ acc
        · simp [hx]
        · have : x ≠ env.canonicalPath p := fun e => hx (e ▸ h3)
          simp [hx, this]
      · have hs : setPluginPathsStep env (seen, acc) p =
            (env.canonicalPath p :: seen, acc ++ [env.canonicalPath p]) := by
          simp [setPluginPathsStep, qskResolvedPath, h2, hne]
        have h3 : env.canonicalPath p ∉ acc := fun e => h2 ((h _).2 e)
        rw [hs, ih _ _ (by intro x; simp [h x]; tauto)]
        rw [List.filter_cons_of_pos (by simpa using h3), List.filter_filter]
        simp only [List.append_assoc, List.singleton_append]
        congr 2
        apply List.filter_congr
        intro x _
        by_cases hx : x ∈ acc <;> by_cases hx2 : x = env.canonicalPath p <;> simp [hx, hx2]

/-! ## C7 -/

/-- C7 fails on the code: after the plugins of `/p` were registered,
`setPluginPaths` with an empty list, or with a list whose only path
canonicalizes to nothing, empties the search path set but leaves the plugin
records in the factory map and the flag set, so that a skin of the abandoned
path is still created. -/
theorem C7_setPluginPaths_empty_keeps_plugins :
    sampleScanned.pluginsRegistered = true ∧ sampleScanned.pluginPaths = ["/p"] ∧
      (setPluginPaths sampleEnv sampleScanned []).pluginPaths = [] ∧
      QMap.keys (setPluginPaths sampleEnv sampleScanned []).factoryMap.m_factoryMap = ["a", "b"] ∧
      (setPluginPaths sampleEnv sampleScanned []).pluginsRegistered = true ∧
      (setPluginPaths sampleEnv sampleScanned ["/gone"]).pluginsRegistered = true ∧
      (createSkin sampleEnv (setPluginPaths sampleEnv sampleScanned []) "Z").1 =
        some (102, "Z") := by
  decide

/-! ## C8 -/

/-- C8 fails on the code: `/q` is its own canonical form, not empty and not in
the search path set, the plugins are registered, yet `addPluginPath` appends
nothing and scans nothing: the state is unchanged. -/
theorem C8_addPluginPath_appends_nothing :
    qskResolvedPath sampleEnv "/q" = "/q" ∧ "/q" ∉ sampleScanned.pluginPaths ∧
      sampleScanned.pluginsRegistered = true ∧
      (addPluginPath sampleEnv sampleScanned "/q").pluginPaths = ["/p"] ∧
      (addPluginPath sampleEnv sampleScanned "/q").scanned = sampleScanned.scanned ∧
      addPluginPath sampleEnv sampleScanned "/q" = sampleScanned := by
  decide

/-! ## C9 -/

/-- C9: after `setPluginPaths( paths )` the value of `pluginPaths()` is the
list of the canonicalized inputs with the empty results dropped and every
duplicate removed keeping the first occurrence, in input order; it holds no
path twice and no empty path. -/
theorem C9_setPluginPaths_canonical_dedup (env : Env) (d : PrivateData) (paths : List String) :
    pluginPaths (setPluginPaths env d paths) = specPluginPaths env paths ∧
      (pluginPaths (setPluginPaths env d paths)).Nodup ∧
      "" ∉ pluginPaths (setPluginPaths env d paths) := by
  have hloop : (paths.foldl (setPluginPathsStep env) ([], [])).2 = specPluginPaths env paths := by
    rw [setPluginPathsLoop env paths [] [] (by simp)]
    simp
  have heq : pluginPaths (setPluginPaths env d paths) = specPluginPaths env paths := by
    unfold pluginPaths setPluginPaths
    simp only [hloop]
    split
    · rfl
    · rename_i hc
      simp only [ne_eq, not_not] at hc
      exact hc.symm
  rw [heq]
  refine ⟨rfl, nodup_keepFirst _, ?_⟩
  unfold specPluginPaths
  rw [mem_keepFirst]
  simp

/-! ## C10 -/

namespace PrivateData

theorem registerPluginsStep_scanned (env : Env) (path : String)
    (st : Option FactoryLoader × PrivateData) (fileName : String) :
    (registerPluginsStep env path st fileName).2.scanned = st.2.scanned := by
  unfold registerPluginsStep
  simp only []
  split <;> rfl

theorem registerPlugins_scanned (env : Env) (d : PrivateData) (path : String) :
    (d.registerPlugins env path).scanned = d.scanned ++ [path] := by
  unfold registerPlugins
  simp only []
  generalize hst : ((none : Option FactoryLoader),
    ({ d with scanned := d.scanned ++ [path] } : PrivateData)) = st
  have h0 : st.2.scanned = d.scanned ++ [path] := by rw [← hst]
  clear hst
  induction env.entryList path generalizing st with
  | nil => exact h0
  | cons f fs ih =>
    simp only [List.foldl_cons]
    exact ih _ (by rw [registerPluginsStep_scanned]; exact h0)

theorem registerAll_scanned (env : Env) (paths : List String) (d : PrivateData) :
    (paths.foldl (fun acc path => acc.registerPlugins env (path ++ "/skins")) d).scanned =
      d.scanned ++ paths.map (fun p => p ++ "/skins") := by
  induction paths generalizing d with
  | nil => simp
  | cons p ps ih =>
    simp only [List.foldl_cons, List.map_cons]
    rw [ih, registerPlugins_scanned]
    simp

theorem ensurePlugins_of_registered (env : Env) {d : PrivateData}
    (h : d.pluginsRegistered = true) : d.ensurePlugins env = d := by
  simp [ensurePlugins, h]

theorem ensurePlugins_registered (env : Env) (d : PrivateData) :
    (d.ensurePlugins env).pluginsRegistered = true := by
  unfold ensurePlugins
  split
  · assumption
  · rfl

end PrivateData

/-- C10: a call of `ensurePlugins()` made with the plugins-registered flag set
leaves the whole state unchanged and lists no directory; a second call
directly after a first changes nothing, so that after two calls the
directories listed are the `skins` directory of each search path, once, when
the flag was clear, and none when it was set. -/
theorem C10_ensurePlugins_idempotent (env : Env) (d : PrivateData) :
    (d.pluginsRegistered = true → d.ensurePlugins env = d) ∧
      (d.ensurePlugins env).ensurePlugins env = d.ensurePlugins env ∧
      ((d.ensurePlugins env).ensurePlugins env).scanned =
        d.scanned ++
          (if d.pluginsRegistered then [] else d.pluginPaths.map (fun p => p ++ "/skins")) := by
  have h3 : (d.ensurePlugins env).ensurePlugins env = d.ensurePlugins env :=
    PrivateData.ensurePlugins_of_registered env (PrivateData.ensurePlugins_registered env d)
  refine ⟨PrivateData.ensurePlugins_of_registered env, h3, ?_⟩
  rw [h3]
  cases hr : d.pluginsRegistered with
  | true => simp [PrivateData.ensurePlugins_of_registered env hr]
  | false =>
    simp [PrivateData.ensurePlugins, hr, PrivateData.registerAll_scanned]

/-- The second call on the sample manager is without effect, and the two
calls together list `/p/skins` and `/q/skins` once each. -/
theorem C10_ensurePlugins_idempotent_witness :
    (sampleUnscanned.ensurePlugins sampleEnv).pluginsRegistered = true ∧
      (sampleUnscanned.ensurePlugins sampleEnv).ensurePlugins sampleEnv =
        sampleUnscanned.ensurePlugins sampleEnv ∧
      ((sampleUnscanned.ensurePlugins sampleEnv).ensurePlugins sampleEnv).scanned =
        ["/p/skins", "/q/skins"] :=
  ⟨by decide,
    (C10_ensurePlugins_idempotent sampleEnv (sampleUnscanned.ensurePlugins sampleEnv)).1
      (by decide),
    (C10_ensurePlugins_idempotent sampleEnv sampleUnscanned).2.2.trans (by decide)⟩

open PrivateData

/-! ## C11 -/

/-- C11: for an empty rectangle, whatever the other arguments and whatever
children the node had, none of the roles Shadow, ShadowFill, Box and Fill has
a node after `updateNode`. -/
theorem C11_empty_rect_clears_roles (env : SGEnv) (self : QskBoxNode) (inp : BoxInputs)
    (h : inp.rectIsEmpty = true) (r : Role) :
    findChildNode (updateNode env self inp) r = none := by
  rw [find_updateNode]
  cases r <;> simp [updateLocals, h]

/-- A node with children in all four roles loses them all when the rectangle
is empty. -/
theorem C11_empty_rect_clears_roles_witness :
    (∀ r, (findChildNode sampleFullBox r).isSome = true) ∧
      ∀ r, findChildNode
        (updateNode sampleSGEnv sampleFullBox { sampleInputs with rectIsEmpty := true }) r = none :=
  ⟨fun r => by cases r <;> decide, fun r =>
    C11_empty_rect_clears_roles sampleSGEnv sampleFullBox
      { sampleInputs with rectIsEmpty := true } rfl r⟩

/-! ## C12 -/

/-- C12: for a non-empty rectangle with a visible gradient, non-null shadow
metrics and a visible shadow colour, exactly one shadow role has a node after
`updateNode`, whatever children existed before: ShadowFill and not Shadow
when the blur radius is at most 0, Shadow and not ShadowFill when it is
positive. -/
theorem C12_one_shadow_role (env : SGEnv) (self : QskBoxNode) (inp : BoxInputs)
    (hrect : inp.rectIsEmpty = false) (hgrad : inp.gradientIsVisible = true)
    (hmetrics : inp.shadowMetricsIsNull = false) (hcolor : inp.shadowColorIsVisible = true) :
    (inp.blurRadius ≤ 0 →
        (findChildNode (updateNode env self inp) Role.ShadowFillRole).isSome = true ∧
          findChildNode (updateNode env self inp) Role.ShadowRole = none) ∧
      (0 < inp.blurRadius →
        (findChildNode (updateNode env self inp) Role.ShadowRole).isSome = true ∧
          findChildNode (updateNode env self inp) Role.ShadowFillRole = none) := by
  rw [find_updateNode, find_updateNode]
  constructor
  · intro hb
    simp [updateLocals, updateShadow, hrect, hgrad, hmetrics, hcolor, hb]
  · intro hb
    have hb' : ¬ inp.blurRadius ≤ 0 := not_le.2 hb
    simp [updateLocals, updateShadow, hrect, hgrad, hmetrics, hcolor, hb']

/-- With all four children present before, a blur radius of 0 leaves the
ShadowFill node only, a blur radius of 3 the Shadow node only. -/
theorem C12_one_shadow_role_witness :
    ((findChildNode (updateNode sampleSGEnv sampleFullBox { sampleInputs with blurRadius := 0 })
          Role.ShadowFillRole).isSome = true ∧
        findChildNode (updateNode sampleSGEnv sampleFullBox { sampleInputs with blurRadius := 0 })
          Role.ShadowRole = none) ∧
      ((findChildNode (updateNode sampleSGEnv sampleFullBox sampleInputs)
          Role.ShadowRole).isSome = true ∧
        findChildNode (updateNode sampleSGEnv sampleFullBox sampleInputs)
          Role.ShadowFillRole = none) :=
  ⟨(C12_one_shadow_role sampleSGEnv sampleFullBox { sampleInputs with blurRadius := 0 }
      rfl rfl rfl rfl).1 (by decide),
    (C12_one_shadow_role sampleSGEnv sampleFullBox sampleInputs rfl rfl rfl rfl).2 (by decide)⟩

/-! ## C13 -/

/-- C13: for a non-empty rectangle the Box role has a node after `updateNode`
exactly when the border or the filling is visible; the Fill role has a node
exactly when border and filling are both visible and the Box node lacks the
coloured-geometry hint or the gradient does not support combined geometry;
without a Box node there is no Fill node. -/
theorem C13_box_and_fill_roles (env : SGEnv) (self : QskBoxNode) (inp : BoxInputs)
    (hrect : inp.rectIsEmpty = false) :
    ((findChildNode (updateNode env self inp) Role.BoxRole).isSome = true ↔
        ((inp.borderMetricsIsNull = false ∧ inp.borderColorsIsVisible = true) ∨
          inp.gradientIsVisible = true)) ∧
      (∀ box, findChildNode (updateNode env self inp) Role.BoxRole = some box →
        ((findChildNode (updateNode env self inp) Role.FillRole).isSome = true ↔
          ((inp.borderMetricsIsNull = false ∧ inp.borderColorsIsVisible = true) ∧
            inp.gradientIsVisible = true ∧
            (box.preferColoredGeometry = false ∨ inp.combinedGeometrySupported = false)))) ∧
      (findChildNode (updateNode env self inp) Role.BoxRole = none →
        findChildNode (updateNode env self inp) Role.FillRole = none) := by
  rw [find_updateNode, find_updateNode]
  simp only [updateLocals, hrect, Bool.not_false, if_true]
  obtain ⟨h1, h2, h3⟩ := updateBoxAndFill_nodes env inp
    (!inp.borderMetricsIsNull && inp.borderColorsIsVisible) inp.gradientIsVisible
    (updateShadow env inp
      (inp.gradientIsVisible && !inp.shadowMetricsIsNull && inp.shadowColorIsVisible)
      { self := self })
    (by simp) (by simp)
  refine ⟨?_, ?_, ?_⟩
  · rw [Option.isSome_map', h1]
    simp
  · intro box hbox
    obtain ⟨n, hn, hbn⟩ := Option.map_eq_some'.1 hbox
    have hhint := h2 n hn
    subst hbn
    rw [Option.isSome_map', h3, ← hhint]
    simp only [setNodeRole_hint]
    cases n.preferColoredGeometry <;> cases inp.combinedGeometrySupported <;>
      cases inp.borderMetricsIsNull <;> cases inp.borderColorsIsVisible <;>
      cases inp.gradientIsVisible <;> simp
  · intro hnone
    have hr : (updateBoxAndFill env inp (!inp.borderMetricsIsNull && inp.borderColorsIsVisible)
        inp.gradientIsVisible (updateShadow env inp
          (inp.gradientIsVisible && !inp.shadowMetricsIsNull && inp.shadowColorIsVisible)
          { self := self })).rectNode.isSome = false := by
      simpa using hnone
    rw [h1] at hr
    have hf : (updateBoxAndFill env inp (!inp.borderMetricsIsNull && inp.borderColorsIsVisible)
        inp.gradientIsVisible (updateShadow env inp
          (inp.gradientIsVisible && !inp.shadowMetricsIsNull && inp.shadowColorIsVisible)
          { self := self })).fillNode.isSome = false := by
      rw [h3]
      revert hr
      cases inp.borderMetricsIsNull <;> cases inp.borderColorsIsVisible <;>
        cases inp.gradientIsVisible <;> simp
    simpa using hf

/-- With border and filling visible and an empty node before: a gradient
that supports combined geometry gives a Box node and no Fill node, one that
does not gives both. -/
theorem C13_box_and_fill_roles_witness :
    ((findChildNode (updateNode sampleSGEnv {} sampleInputs) Role.BoxRole).isSome = true ∧
        findChildNode (updateNode sampleSGEnv {} sampleInputs) Role.FillRole = none) ∧
      ((findChildNode
            (updateNode sampleSGEnv {} { sampleInputs with combinedGeometrySupported := false })
            Role.BoxRole).isSome = true ∧
        (findChildNode
            (updateNode sampleSGEnv {} { sampleInputs with combinedGeometrySupported := false })
            Role.FillRole).isSome = true) :=
  have h := C13_box_and_fill_roles sampleSGEnv {} sampleInputs rfl
  have h' := C13_box_and_fill_roles sampleSGEnv {}
    { sampleInputs with combinedGeometrySupported := false } rfl
  ⟨⟨h.1.2 (by decide), by decide⟩, ⟨h'.1.2 (by decide), by decide⟩⟩

/-! ## C14 -/

/-- C14: for a non-empty rectangle with a visible gradient, no visible border
and no shadow, the Box role has a node after `updateNode` and the roles Fill,
Shadow and ShadowFill have none, whatever children existed before. -/
theorem C14_fill_only (env : SGEnv) (self : QskBoxNode) (inp : BoxInputs)
    (hrect : inp.rectIsEmpty = false) (hgrad : inp.gradientIsVisible = true)
    (hborder : inp.borderMetricsIsNull = true ∨ inp.borderColorsIsVisible = false)
    (hshadow : inp.shadowMetricsIsNull = true ∨ inp.shadowColorIsVisible = false) :
    (findChildNode (updateNode env self inp) Role.BoxRole).isSome = true ∧
      findChildNode (updateNode env self inp) Role.FillRole = none ∧
      findChildNode (updateNode env self inp) Role.ShadowRole = none ∧
      findChildNode (updateNode env self inp) Role.ShadowFillRole = none := by
  have hb : (!inp.borderMetricsIsNull && inp.borderColorsIsVisible) = false := by
    rcases hborder with h | h <;> simp [h]
  have hs : (inp.gradientIsVisible && !inp.shadowMetricsIsNull && inp.shadowColorIsVisible)
      = false := by
    rcases hshadow with h | h <;> simp [h]
  rw [find_updateNode, find_updateNode, find_updateNode, find_updateNode]
  simp only [updateLocals, hrect, Bool.not_false, if_true, hb, hs]
  simp [updateShadow, updateBoxAndFill, hgrad]

/-- All four roles had a node before; with a filling only the Box node alone
is left. -/
theorem C14_fill_only_witness :
    (∀ r, (findChildNode sampleFullBox r).isSome = true) ∧
      (findChildNode (updateNode sampleSGEnv sampleFullBox
          { sampleInputs with borderMetricsIsNull := true, shadowMetricsIsNull := true })
        Role.BoxRole).isSome = true ∧
      findChildNode (updateNode sampleSGEnv sampleFullBox
          { sampleInputs with borderMetricsIsNull := true, shadowMetricsIsNull := true })
        Role.FillRole = none :=
  have h := C14_fill_only sampleSGEnv sampleFullBox
    { sampleInputs with borderMetricsIsNull := true, shadowMetricsIsNull := true }
    rfl rfl (Or.inl rfl) (Or.inl rfl)
  ⟨fun r => by cases r <;> decide, h.1, h.2.1⟩

/-! ## C20 -/

/-- C20: for a non-empty rectangle whose gradient is not visible neither the
Shadow nor the ShadowFill role has a node after `updateNode`, whatever the
border, the shadow metrics and the shadow colour are. -/
theorem C20_no_shadow_without_filling (env : SGEnv) (self : QskBoxNode) (inp : BoxInputs)
    (hrect : inp.rectIsEmpty = false) (hgrad : inp.gradientIsVisible = false) :
    findChildNode (updateNode env self inp) Role.ShadowRole = none ∧
      findChildNode (updateNode env self inp) Role.ShadowFillRole = none := by
  rw [find_updateNode, find_updateNode]
  simp [updateLocals, updateShadow, hrect, hgrad]

/-- Border, shadow metrics and shadow colour are all visible, the gradient is
not: both shadow nodes that existed before are gone. -/
theorem C20_no_shadow_without_filling_witness :
    findChildNode (updateNode sampleSGEnv sampleFullBox
        { sampleInputs with gradientIsVisible := false }) Role.ShadowRole = none ∧
      findChildNode (updateNode sampleSGEnv sampleFullBox
        { sampleInputs with gradientIsVisible := false }) Role.ShadowFillRole = none :=
  C20_no_shadow_without_filling sampleSGEnv sampleFullBox
    { sampleInputs with gradientIsVisible := false } rfl rfl

/-! ## Lemmas: repeated insertion -/

namespace QMap

theorem insert_insert {α : Type} (m : QMap α) (k : String) (v : α) :
    insert (insert m k v) k v = insert m k v := by
  induction m with
  | nil => simp [insert, qstringLess_irrefl]
  | cons e rest ih =>
    obtain ⟨ke, ve⟩ := e
    by_cases h1 : qstringLess k ke = true
    · simp [insert, h1, qstringLess_irrefl]
    · by_cases h2 : k = ke
      · subst h2
        simp [insert, qstringLess_irrefl]
      · simp [insert, h1, h2, ih]

end QMap

namespace FactoryMap

theorem recordAt_insert (fm : FactoryMap) (k : String) (d : Data) :
    ({ fm with m_factoryMap := QMap.insert fm.m_factoryMap k d } : FactoryMap).recordAt k = d := by
  simp [recordAt, QMap.find_insert]

/-- Inserting the same factory under the same id twice is inserting it once. -/
theorem insertFactory_insertFactory (fm : FactoryMap) (k : String)
    (f : Option QskSkinFactory) :
    (fm.insertFactory k f).insertFactory k f = fm.insertFactory k f := by
  by_cases h : (fm.recordAt k).factory = f
  · have h1 : fm.insertFactory k f =
        { fm with m_factoryMap := QMap.insert fm.m_factoryMap k (fm.recordAt k) } := by
      simp [insertFactory, h]
    rw [h1]
    have h2 := recordAt_insert fm k (fm.recordAt k)
    simp only [insertFactory, h2, h, ne_eq, not_true_eq_false, if_false]
    rw [QMap.insert_insert]
  · have h1 : fm.insertFactory k f =
        { fm with
          m_factoryMap := QMap.insert fm.m_factoryMap k { loader := none, factory := f }
          m_skinMap := []
          m_skinNames := []
          m_isValid := false } := by
      simp [insertFactory, h, Data.reset]
    rw [h1]
    have h2 : ({ fm with
          m_factoryMap := QMap.insert fm.m_factoryMap k { loader := none, factory := f }
          m_skinMap := []
          m_skinNames := []
          m_isValid := false } : FactoryMap).recordAt k = { loader := none, factory := f } := by
      simp [recordAt, QMap.find_insert]
    simp only [insertFactory, h2, ne_eq, not_true_eq_false, if_false]
    rw [QMap.insert_insert]

/-- Inserting a factory that the record under the id already holds changes
nothing in a sorted table. -/
theorem insertFactory_of_registered {fm : FactoryMap} (hwf : QMap.WF fm.m_factoryMap)
    {k : String} {d : Data} (hd : (k, d) ∈ fm.m_factoryMap) :
    fm.insertFactory k d.factory = fm := by
  have hfind := QMap.find_of_mem hwf hd
  have hrec : fm.recordAt k = d := by simp [recordAt, hfind]
  simp [insertFactory, hrec, QMap.insert_self hwf hfind]

end FactoryMap

/-! ## C15 -/

/-- C15: `registerFactory` called with an empty id or with a null factory
leaves the manager state unchanged, so that no record is created or replaced
and a valid name index stays valid. -/
theorem C15_registerFactory_ignores_empty (env : Env) (d : PrivateData) (factoryId : String)
    (factory : Option QskSkinFactory) (h : factoryId = "" ∨ factory = none) :
    registerFactory env d factoryId factory = d := by
  rcases h with h | h
  · have he : factoryId.isEmpty = true := (String.isEmpty_iff _).2 h
    simp [registerFactory, he]
  · subst h
    simp [registerFactory]

/-- Neither the empty id nor the null factory changes the manager whose index
is valid. -/
theorem C15_registerFactory_ignores_empty_witness :
    sampleQueried.factoryMap.m_isValid = true ∧
      registerFactory sampleEnv sampleQueried "" (some 2) = sampleQueried ∧
      registerFactory sampleEnv sampleQueried "G" none = sampleQueried :=
  ⟨by decide, C15_registerFactory_ignores_empty sampleEnv sampleQueried "" (some 2) (Or.inl rfl),
    C15_registerFactory_ignores_empty sampleEnv sampleQueried "G" none (Or.inr rfl)⟩

/-! ## C16 -/

/-- C16: a second `registerFactory( id, f )` directly after the first leaves
the state as the first call left it; and when `f` is what the record under the
lower-cased id already holds, in a sorted table, the call changes nothing: the
index keeps its validity and `skinNames()` returns what it returned. -/
theorem C16_registerFactory_idempotent (env : Env) (d : PrivateData) (factoryId : String)
    (f : QskSkinFactory) :
    registerFactory env (registerFactory env d factoryId (some f)) factoryId (some f) =
        registerFactory env d factoryId (some f) ∧
      (QMap.WF d.factoryMap.m_factoryMap →
        (∃ rec, (env.toLower factoryId, rec) ∈ d.factoryMap.m_factoryMap ∧
          rec.factory = some f) →
        registerFactory env d factoryId (some f) = d ∧
          (registerFactory env d factoryId (some f)).factoryMap.m_isValid =
            d.factoryMap.m_isValid ∧
          (skinNames env (registerFactory env d factoryId (some f))).1 = (skinNames env d).1) := by
  constructor
  · unfold registerFactory
    cases hid : factoryId.isEmpty with
    | true => simp [hid]
    | false =>
      simp only [hid, Option.isNone_some, Bool.or_self, Bool.false_eq_true, if_false]
      rw [insertFactory_insertFactory]
  · rintro hwf ⟨rec, hmem, hrec⟩
    have hsame : registerFactory env d factoryId (some f) = d := by
      unfold registerFactory
      cases hid : factoryId.isEmpty with
      | true => simp [hid]
      | false =>
        simp only [hid, Option.isNone_some, Bool.or_self, Bool.false_eq_true, if_false]
        rw [← hrec, insertFactory_of_registered hwf hmem]
    rw [hsame]
    exact ⟨rfl, rfl, rfl⟩

/-- The factory at address 1 is registered under `f` and the index is valid:
registering it again, under `F`, changes nothing. -/
theorem C16_registerFactory_idempotent_witness :
    sampleQueried.factoryMap.m_isValid = true ∧
      registerFactory sampleEnv sampleQueried "F" (some 1) = sampleQueried ∧
      (skinNames sampleEnv (registerFactory sampleEnv sampleQueried "F" (some 1))).1 =
        ["Alpha", "Beta"] :=
  have h := (C16_registerFactory_idempotent sampleEnv sampleQueried "F" 1).2 (by decide)
    ⟨{ loader := none, factory := some 1 }, by decide, rfl⟩
  ⟨by decide, h.1, h.2.2.trans (by decide)⟩

/-! ## C17 -/

/-- C17 fails on the code: in `/s/skins` the copy of `1.so` is rejected,
because its factory id `dup` is registered already, and the prober, reused
for `4.so` with the names of `1.so` still in it, commits the factory `c` with
the names `X`, `Z`; the variant with a fresh prober per file commits `c` with
`Z`, which is what `4.so` declares. -/
theorem C17_reused_prober_differs :
    reuseStart.factoryMap.hasFactory "dup" = true ∧
      (reuseEnv.metaData "/s/skins/4.so").skins.map (fun s => s.name) = ["Z"] ∧
      committed (reuseStart.registerPlugins reuseEnv "/s/skins") = [("c", ["X", "Z"])] ∧
      committed (reuseStart.registerPluginsFresh reuseEnv "/s/skins") = [("c", ["Z"])] := by
  decide

/-! ## C18 -/

/-- C18 fails on the code: in `/r/skins` the prober rejected for `1.so` (id
registered already) and for `2.so` (excluded id) still holds the name `X` and
the id `fluent2factory` when it probes `3.so`, whose interface id is not the
expected one; `setPlugin` succeeds and the probe of `3.so` inserts a record
bound to `3.so` under `fluent2factory`.  The candidate after it, `4.so`, is
probed and committed. -/
theorem C18_foreign_candidate_inserted :
    (reuseEnv.metaData "/r/skins/3.so").iid ≠ reuseEnv.interfaceId ∧
      (["1.so", "2.so"].foldl (registerPluginsStep reuseEnv "/r/skins")
        (none, reuseStart)).2.factoryMap.hasFactory "fluent2factory" = false ∧
      QMap.find
        (registerPluginsStep reuseEnv "/r/skins"
          (["1.so", "2.so"].foldl (registerPluginsStep reuseEnv "/r/skins") (none, reuseStart))
          "3.so").2.factoryMap.m_factoryMap "fluent2factory" =
        some { loader := some { addr := 0, fileName := "/r/skins/3.so",
                                m_factoryId := "fluent2factory", m_skinNames := ["X"] },
               factory := none } ∧
      QMap.keys (reuseStart.registerPlugins reuseEnv "/r/skins").factoryMap.m_factoryMap =
        ["c", "dup", "fluent2factory"] ∧
      QMap.keys (reuseStart.registerPluginsFresh reuseEnv "/r/skins").factoryMap.m_factoryMap =
        ["c", "dup"] := by
  decide

/-! ## C19 -/

namespace FactoryLoader

/-- The names after the loop over the skins, built against Qt 6.5 or later:
the names of the matching skins, last first, then the names the loader held,
then the names of the other skins. -/
theorem foldl_addSkin_names (env : Env) (h : env.qtAtLeast65 = true) (skins : List SkinEntry)
    (l : FactoryLoader) :
    (skins.foldl (addSkin env) l).m_skinNames =
      ((skins.filter (fun s => s.matchesScheme env)).map (fun s => s.name)).reverse ++
        l.m_skinNames ++
        (skins.filter (fun s => !s.matchesScheme env)).map (fun s => s.name) := by
  induction skins generalizing l with
  | nil => simp
  | cons s ss ih =>
    simp only [List.foldl_cons]
    rw [ih]
    by_cases hm : schemeOf s.scheme = env.colorScheme
    · simp [addSkin, h, hm, SkinEntry.matchesScheme]
    · simp [addSkin, h, hm, SkinEntry.matchesScheme]

/-- The names after the loop over the skins, built against an older Qt: the
names the loader held, then the declared names. -/
theorem foldl_addSkin_names_old (env : Env) (h : env.qtAtLeast65 = false)
    (skins : List SkinEntry) (l : FactoryLoader) :
    (skins.foldl (addSkin env) l).m_skinNames =
      l.m_skinNames ++ skins.map (fun s => s.name) := by
  induction skins generalizing l with
  | nil => simp
  | cons s ss ih =>
    simp only [List.foldl_cons]
    rw [ih]
    simp [addSkin, h]

/-- What `setPlugin` leaves in a fresh prober for metadata of the expected
interface and a factory id that is not excluded. -/
theorem setPlugin_fresh_names (env : Env) (addr : Nat) (fileName : String) (i : Nat)
    (hiid : (env.metaData fileName).iid = env.interfaceId)
    (hid : env.toLower (env.metaData fileName).factoryId ≠ "fluent2factory") :
    ∃ l3 : FactoryLoader, l3.m_skinNames = [] ∧
      (setPlugin env { addr := addr } fileName i).2.1 =
        (env.metaData fileName).skins.foldl (addSkin env) l3 := by
  unfold setPlugin
  simp only [hiid, if_true, hid, if_false]
  split
  · exact ⟨_, rfl, rfl⟩
  · exact ⟨_, rfl, rfl⟩

end FactoryLoader

/-- C19, as the claim states it, fails: `2.so` carries the expected interface
id and declares the skin `F`, but its factory id is the excluded
`fluent2factory`; a fresh prober advertises no name after `setPlugin`, which
is no permutation of the declared names. -/
theorem C19_excluded_factory_counterexample :
    (reuseEnv.metaData "/r/skins/2.so").iid = reuseEnv.interfaceId ∧
      (reuseEnv.metaData "/r/skins/2.so").skins.map (fun s => s.name) = ["F"] ∧
      (FactoryLoader.setPlugin reuseEnv { addr := 0 } "/r/skins/2.so" 0).2.1.m_skinNames = [] ∧
      ¬ List.Perm (FactoryLoader.setPlugin reuseEnv { addr := 0 } "/r/skins/2.so" 0).2.1.m_skinNames
          ((reuseEnv.metaData "/r/skins/2.so").skins.map (fun s => s.name)) := by
  refine ⟨by decide, by decide, by decide, ?_⟩
  have h : (FactoryLoader.setPlugin reuseEnv { addr := 0 } "/r/skins/2.so" 0).2.1.m_skinNames
      = [] := by decide
  rw [h]
  intro hp
  have := hp.length_eq
  simp at this
  revert this
  decide

/-- C19, amended: for a freshly created prober and metadata with the expected
interface id and a factory id other than the excluded `fluent2factory`, the
advertised names after `setPlugin` are a permutation of the declared names;
built against Qt 6.5 or later they are the names of the skins whose scheme is
the active one (last declared first) followed by the names of the other
skins, so that every matching name precedes every other; built against an
older Qt they are the declared names in their order. -/
theorem C19_setPlugin_names (env : Env) (addr : Nat) (fileName : String) (i : Nat)
    (hiid : (env.metaData fileName).iid = env.interfaceId)
    (hid : env.toLower (env.metaData fileName).factoryId ≠ "fluent2factory") :
    List.Perm (FactoryLoader.setPlugin env { addr := addr } fileName i).2.1.m_skinNames
        ((env.metaData fileName).skins.map (fun s => s.name)) ∧
      (env.qtAtLeast65 = true →
        (FactoryLoader.setPlugin env { addr := addr } fileName i).2.1.m_skinNames =
          (((env.metaData fileName).skins.filter (fun s => s.matchesScheme env)).map
              (fun s => s.name)).reverse ++
            ((env.metaData fileName).skins.filter (fun s => !s.matchesScheme env)).map
              (fun s => s.name)) ∧
      (env.qtAtLeast65 = false →
        (FactoryLoader.setPlugin env { addr := addr } fileName i).2.1.m_skinNames =
          (env.metaData fileName).skins.map (fun s => s.name)) := by
  obtain ⟨l3, hl3, heq⟩ := FactoryLoader.setPlugin_fresh_names env addr fileName i hiid hid
  rw [heq]
  have hnew : env.qtAtLeast65 = true →
      ((env.metaData fileName).skins.foldl (FactoryLoader.addSkin env) l3).m_skinNames =
        (((env.metaData fileName).skins.filter (fun s => s.matchesScheme env)).map
            (fun s => s.name)).reverse ++
          ((env.metaData fileName).skins.filter (fun s => !s.matchesScheme env)).map
            (fun s => s.name) := by
    intro h
    rw [FactoryLoader.foldl_addSkin_names env h, hl3]
    simp
  have hold : env.qtAtLeast65 = false →
      ((env.metaData fileName).skins.foldl (FactoryLoader.addSkin env) l3).m_skinNames =
        (env.metaData fileName).skins.map (fun s => s.name) := by
    intro h
    rw [FactoryLoader.foldl_addSkin_names_old env h, hl3]
    simp
  refine ⟨?_, hnew, hold⟩
  cases hq : env.qtAtLeast65 with
  | false => rw [hold hq]
  | true =>
    rw [hnew hq]
    have h1 := List.filter_append_perm (fun s => s.matchesScheme env) (env.metaData fileName).skins
    have h2 := h1.map (fun s => s.name)
    rw [List.map_append] at h2
    refine List.Perm.trans ?_ h2
    exact List.Perm.append (List.reverse_perm _) (List.Perm.refl _)

/-- The file `5.so` declares `D` (dark), `L` (light), `N` (no scheme) and `M`
(light); with the light scheme active a fresh prober advertises `M`, `L`,
`D`, `N`. -/
theorem C19_setPlugin_names_witness :
    (FactoryLoader.setPlugin reuseEnv { addr := 0 } "/r/skins/5.so" 0).2.1.m_skinNames =
        ["M", "L", "D", "N"] ∧
      List.Perm (FactoryLoader.setPlugin reuseEnv { addr := 0 } "/r/skins/5.so" 0).2.1.m_skinNames
        ["D", "L", "N", "M"] :=
  have h := C19_setPlugin_names reuseEnv 0 "/r/skins/5.so" 0 (by decide) (by decide)
  ⟨(h.2.1 rfl).trans (by decide), h.1⟩

/-! ## Lemmas: the order of the skin names -/

theorem keepFirst_filter (xs : List String) (p : String → Bool) :
    (keepFirst xs).filter p = keepFirst (xs.filter p) := by
  induction xs with
  | nil => rfl
  | cons x xs ih =>
    by_cases hx : p x = true
    · simp only [keepFirst, List.filter_cons_of_pos hx]
      rw [← ih, List.filter_filter, List.filter_filter]
      congr 1
      apply List.filter_congr
      intro y _
      simp [Bool.and_comm]
    · simp only [keepFirst, List.filter_cons_of_neg hx]
      rw [← ih, List.filter_filter]
      apply List.filter_congr
      intro y _
      by_cases hy : y = x
      · subst hy
        simp [hx]
      · simp [hy]

theorem keepFirst_append (xs ys : List String) :
    keepFirst (xs ++ ys) = keepFirst xs ++ (keepFirst ys).filter (fun y => y ∉ xs) := by
  induction xs with
  | nil => simp [keepFirst]
  | cons x xs ih =>
    rw [List.cons_append]
    simp only [keepFirst]
    rw [ih, List.filter_append, List.filter_filter, List.cons_append]
    congr 2
    apply List.filter_congr
    intro y _
    by_cases h1 : y = x <;> by_cases h2 : y ∈ xs <;> simp [h1, h2]

namespace FactoryMap

/-- The names after `rebuild( factoryId, skinNames )`: the names listed
before, then the new names that were not listed, each once. -/
theorem names_rebuildNames {fm : FactoryMap} (h : fm.IndexInv) (id : String)
    (ns : List String) :
    (fm.rebuildNames id ns).m_skinNames =
      fm.m_skinNames ++ (keepFirst ns).filter (fun x => x ∉ fm.m_skinNames) := by
  induction ns generalizing fm with
  | nil => simp [keepFirst]
  | cons n ns ih =>
    cases hc : QMap.contains fm.m_skinMap n with
    | true =>
      have hn : n ∈ fm.m_skinNames := (h.2 n).2 hc
      rw [rebuildNames_cons_of_contains hc, ih h]
      simp only [keepFirst]
      rw [List.filter_cons_of_neg (by simpa using hn), List.filter_filter]
      congr 1
      apply List.filter_congr
      intro x _
      by_cases hx : x ∈ fm.m_skinNames
      · simp [hx]
      · have : x ≠ n := fun e => hx (e ▸ hn)
        simp [hx, this]
    | false =>
      have hn : n ∉ fm.m_skinNames := fun hm => by
        have := (h.2 n).1 hm
        simp [hc] at this
      have hinv : ({ fm with m_skinMap := QMap.insert fm.m_skinMap n id
                             m_skinNames := fm.m_skinNames ++ [n] } : FactoryMap).IndexInv := by
        have := indexInv_rebuildNames h id [n]
        rw [rebuildNames_cons_of_not hc] at this
        exact this
      rw [rebuildNames_cons_of_not hc, ih hinv]
      simp only [keepFirst]
      rw [List.filter_cons_of_pos (by simpa using hn), List.filter_filter]
      simp only [List.append_assoc, List.singleton_append]
      congr 2
      apply List.filter_congr
      intro x _
      by_cases hx : x ∈ fm.m_skinNames <;> by_cases hx2 : x = n <;> simp [hx, hx2]

/-- The names after a pass over the records of a table. -/
theorem names_foldNames (g : String × Data → List String) (es : List (String × Data))
    {acc : FactoryMap} (h : acc.IndexInv) :
    (es.foldl (fun a e => a.rebuildNames e.1 (g e)) acc).m_skinNames =
      acc.m_skinNames ++ (keepFirst (contributed g es)).filter (fun x => x ∉ acc.m_skinNames) := by
  induction es generalizing acc with
  | nil => simp [contributed, keepFirst]
  | cons e es ih =>
    simp only [List.foldl_cons, contributed]
    rw [ih (indexInv_rebuildNames h _ _), names_rebuildNames h, keepFirst_append,
      List.filter_append, List.filter_filter]
    simp only [List.append_assoc]
    congr 2
    apply List.filter_congr
    intro x _
    by_cases hx : x ∈ acc.m_skinNames <;> by_cases hx2 : x ∈ g e <;>
      simp [hx, hx2, List.mem_filter, mem_keepFirst]

/-- The list computed by `rebuild`: the names of the manual records in key
order, then those of the loaders that no manual record advertises, each name
once. -/
theorem names_rebuild (env : Env) (fm : FactoryMap) :
    (fm.rebuild env).m_skinNames =
      keepFirst (contributed (manualNames env) fm.m_factoryMap) ++
        (keepFirst (contributed loaderNames fm.m_factoryMap)).filter
          (fun x => x ∉ contributed (manualNames env) fm.m_factoryMap) := by
  have h0 : ({ m_factoryMap := fm.m_factoryMap, m_skinMap := [], m_skinNames := [],
               m_isValid := true } : FactoryMap).IndexInv :=
    ⟨List.nodup_nil, by intro n; simp [QMap.contains, QMap.find]⟩
  rw [rebuild_eq, names_foldNames _ _ (foldNames_indexInv _ _ h0), names_foldNames _ _ h0]
  simp only [List.nil_append, List.not_mem_nil, not_false_eq_true, decide_True,
    List.filter_true]
  congr 1
  apply List.filter_congr
  intro x _
  simp [mem_keepFirst]

theorem mem_contributed {g : String × Data → List String} {es : List (String × Data)}
    {n : String} : n ∈ contributed g es ↔ ∃ e ∈ es, n ∈ g e := by
  induction es with
  | nil => simp [contributed]
  | cons e es ih => simp [contributed, ih]

/-- In a sorted table the names of a pass appear in ascending order of the
first record that advertises them. -/
theorem pairwise_contributed (g : String × Data → List String) {es : List (String × Data)}
    (hwf : QMap.WF es) :
    (keepFirst (contributed g es)).Pairwise (fun n n' =>
      ∀ e e', es.find? (fun x => decide (n ∈ g x)) = some e →
        es.find? (fun x => decide (n' ∈ g x)) = some e' → qstringLess e'.1 e.1 = false) := by
  induction es with
  | nil => simp [contributed, keepFirst]
  | cons x rest ih =>
    have hp := List.pairwise_cons.1 hwf
    simp only [contributed, keepFirst_append]
    rw [List.pairwise_append]
    refine ⟨?_, ?_, ?_⟩
    · apply List.Pairwise.imp_of_mem _ (List.pairwise_of_forall (R := fun _ _ => True)
        (fun _ _ => trivial))
      intro n n' hn hn' _ e e' he he'
      have h1 : n ∈ g x := (mem_keepFirst _ _).1 hn
      have h2 : n' ∈ g x := (mem_keepFirst _ _).1 hn'
      simp [List.find?_cons, h1] at he
      simp [List.find?_cons, h2] at he'
      rw [← he, ← he']
      exact qstringLess_irrefl _
    · apply List.Pairwise.imp_of_mem _ ((ih hp.2).filter _)
      intro n n' hn hn' hr e e' he he'
      have h1 : n ∉ g x := by simpa using (List.mem_filter.1 hn).2
      have h2 : n' ∉ g x := by simpa using (List.mem_filter.1 hn').2
      simp [List.find?_cons, h1] at he
      simp [List.find?_cons, h2] at he'
      exact hr e e' he he'
    · intro n hn n' hn' e e' he he'
      have h1 : n ∈ g x := (mem_keepFirst _ _).1 hn
      have h2 : n' ∉ g x := by simpa using (List.mem_filter.1 hn').2
      simp [List.find?_cons, h1] at he
      simp [List.find?_cons, h2] at he'
      rw [← he]
      exact qstringLess_asymm (hp.1 e' (List.mem_of_find?_eq_some he'))

end FactoryMap

open QskSGNode QskBoxNode

/-! ## C21 -/

/-- C21: a role that has a node before `updateNode` and has one after it
holds the very same node, with its address and class; a role that had no node
and has one afterwards holds a node created in the call; and the number of
nodes created in the call is the number of roles that had no node before and
have one afterwards, so that no node is created for a role that had one. -/
theorem C21_nodes_reused (env : SGEnv) (self : QskBoxNode) (inp : BoxInputs) :
    (∀ r m n, findChildNode self r = some m →
        findChildNode (updateNode env self inp) r = some n →
        n.addr = m.addr ∧ n.nodeClass = m.nodeClass) ∧
      (∀ r n, findChildNode self r = none →
        findChildNode (updateNode env self inp) r = some n →
        self.allocated ≤ n.addr ∧ n.addr < (updateNode env self inp).allocated) ∧
      (updateNode env self inp).allocated =
        self.allocated +
          roles.countP (fun r =>
            (findChildNode self r).isNone &&
              (findChildNode (updateNode env self inp) r).isSome) := by
  obtain ⟨_, o1, o2, o3, o4, hc⟩ := tracks_updateLocals env self inp
  have horigin : ∀ r n, findChildNode (updateNode env self inp) r = some n →
      (∀ m, self.slot r = some m → n.addr = m.addr ∧ n.nodeClass = m.nodeClass) ∧
        (self.slot r = none →
          self.allocated ≤ n.addr ∧ n.addr < (updateLocals env self inp).self.allocated) := by
    intro r n hn
    rw [find_updateNode] at hn
    obtain ⟨n0, hn0, rfl⟩ := Option.map_eq_some'.1 hn
    cases r
    · exact o1 n0 hn0
    · exact o2 n0 hn0
    · exact o3 n0 hn0
    · exact o4 n0 hn0
  refine ⟨fun r m n hm hn => (horigin r n hn).1 m hm, fun r n h0 hn => (horigin r n hn).2 h0, ?_⟩
  have e1 : (findChildNode (updateNode env self inp) Role.ShadowRole).isSome =
      (updateLocals env self inp).shadowNode.isSome := by
    rw [find_updateNode, Option.isSome_map']
  have e2 : (findChildNode (updateNode env self inp) Role.ShadowFillRole).isSome =
      (updateLocals env self inp).shadowFillNode.isSome := by
    rw [find_updateNode, Option.isSome_map']
  have e3 : (findChildNode (updateNode env self inp) Role.BoxRole).isSome =
      (updateLocals env self inp).rectNode.isSome := by
    rw [find_updateNode, Option.isSome_map']
  have e4 : (findChildNode (updateNode env self inp) Role.FillRole).isSome =
      (updateLocals env self inp).fillNode.isSome := by
    rw [find_updateNode, Option.isSome_map']
  rw [updateNode_allocated, hc]
  simp only [roles, List.countP_cons, List.countP_nil, e1, e2, e3, e4, created]
  simp only [findChildNode]
  omega

/-- The box node that had all four children keeps the Box node at address 2;
the empty box node gets a Box node created at address 0, the only node
created. -/
theorem C21_nodes_reused_witness :
    (∀ n, findChildNode (updateNode sampleSGEnv sampleFullBox sampleInputs) Role.BoxRole = some n →
        n.addr = 2) ∧
      (updateNode sampleSGEnv sampleFullBox sampleInputs).allocated = sampleFullBox.allocated ∧
      (∀ n, findChildNode (updateNode sampleSGEnv {}
          { sampleInputs with shadowMetricsIsNull := true }) Role.BoxRole = some n →
        n.addr = 0) ∧
      (updateNode sampleSGEnv {} { sampleInputs with shadowMetricsIsNull := true }).allocated
        = 1 :=
  have h := C21_nodes_reused sampleSGEnv sampleFullBox sampleInputs
  have h' := C21_nodes_reused sampleSGEnv {} { sampleInputs with shadowMetricsIsNull := true }
  ⟨fun n hn => (h.1 Role.BoxRole _ n rfl hn).1, by decide,
    fun n hn => by
      have := h'.2.1 Role.BoxRole n rfl hn
      have h1 : (updateNode sampleSGEnv {}
          { sampleInputs with shadowMetricsIsNull := true }).allocated = 1 := by decide
      rw [h1] at this
      have h2 : ({} : QskBoxNode).allocated = 0 := rfl
      omega,
    by decide⟩

namespace FactoryMap

/-- The owner of a name that a manual record advertises is the first manual
record, in key order, that advertises it. -/
theorem owner_of_manual (env : Env) (fm : FactoryMap) {n : String}
    (h : n ∈ contributed (manualNames env) fm.m_factoryMap) :
    ∃ e, fm.m_factoryMap.find? (fun x => decide (n ∈ manualNames env x)) = some e ∧
      QMap.find (fm.rebuild env).m_skinMap n = some e.1 := by
  obtain ⟨e0, he0, hn0⟩ := mem_contributed.1 h
  cases hf : fm.m_factoryMap.find? (fun x => decide (n ∈ manualNames env x)) with
  | none =>
    have := List.find?_eq_none.1 hf e0 he0
    simp [hn0] at this
  | some e =>
    refine ⟨e, rfl, ?_⟩
    rw [find_rebuild, hf]
    simp

/-- The owner of a name that no manual record but a loader advertises is the
first loader-backed record, in key order, that advertises it. -/
theorem owner_of_loader (env : Env) (fm : FactoryMap) {n : String}
    (h0 : n ∉ contributed (manualNames env) fm.m_factoryMap)
    (h : n ∈ contributed loaderNames fm.m_factoryMap) :
    ∃ e, fm.m_factoryMap.find? (fun x => decide (n ∈ loaderNames x)) = some e ∧
      QMap.find (fm.rebuild env).m_skinMap n = some e.1 := by
  obtain ⟨e0, he0, hn0⟩ := mem_contributed.1 h
  have hm : fm.m_factoryMap.find? (fun x => decide (n ∈ manualNames env x)) = none := by
    apply List.find?_eq_none.2
    intro x hx
    have : n ∉ manualNames env x := fun hh => h0 (mem_contributed.2 ⟨x, hx, hh⟩)
    simpa using this
  cases hf : fm.m_factoryMap.find? (fun x => decide (n ∈ loaderNames x)) with
  | none =>
    have := List.find?_eq_none.1 hf e0 he0
    simp [hn0] at this
  | some e =>
    refine ⟨e, rfl, ?_⟩
    rw [find_rebuild, hm, hf]
    simp

/-- The list and the owners computed by `rebuild` over a sorted table: the
names owned by manual records, then the names owned by loader-backed records,
each part in ascending order of the owning factory id. -/
theorem rebuild_ordered (env : Env) (fm : FactoryMap) (hwf : QMap.WF fm.m_factoryMap) :
    ∃ manualPart loaderPart,
      (fm.rebuild env).m_skinNames = manualPart ++ loaderPart ∧
        (∀ n ∈ manualPart, ∃ e ∈ fm.m_factoryMap,
          QMap.find (fm.rebuild env).m_skinMap n = some e.1 ∧ n ∈ manualNames env e) ∧
        (∀ n ∈ loaderPart, ∃ e ∈ fm.m_factoryMap,
          QMap.find (fm.rebuild env).m_skinMap n = some e.1 ∧ n ∈ loaderNames e) ∧
        manualPart.Pairwise (fun n n' => ∀ o o',
          QMap.find (fm.rebuild env).m_skinMap n = some o →
          QMap.find (fm.rebuild env).m_skinMap n' = some o' → qstringLess o' o = false) ∧
        loaderPart.Pairwise (fun n n' => ∀ o o',
          QMap.find (fm.rebuild env).m_skinMap n = some o →
          QMap.find (fm.rebuild env).m_skinMap n' = some o' → qstringLess o' o = false) := by
  refine ⟨keepFirst (contributed (manualNames env) fm.m_factoryMap),
    (keepFirst (contributed loaderNames fm.m_factoryMap)).filter
      (fun x => x ∉ contributed (manualNames env) fm.m_factoryMap),
    names_rebuild env fm, ?_, ?_, ?_, ?_⟩
  · intro n hn
    obtain ⟨e, he, ho⟩ := owner_of_manual env fm ((mem_keepFirst _ _).1 hn)
    exact ⟨e, List.mem_of_find?_eq_some he, ho, by simpa using List.find?_some he⟩
  · intro n hn
    obtain ⟨hn1, hn2⟩ := List.mem_filter.1 hn
    obtain ⟨e, he, ho⟩ := owner_of_loader env fm (by simpa using hn2) ((mem_keepFirst _ _).1 hn1)
    exact ⟨e, List.mem_of_find?_eq_some he, ho, by simpa using List.find?_some he⟩
  · apply List.Pairwise.imp_of_mem _ (pairwise_contributed (manualNames env) hwf)
    intro n n' hn hn' hr o o' ho ho'
    obtain ⟨e, he, hoe⟩ := owner_of_manual env fm ((mem_keepFirst _ _).1 hn)
    obtain ⟨e', he', hoe'⟩ := owner_of_manual env fm ((mem_keepFirst _ _).1 hn')
    rw [hoe] at ho
    rw [hoe'] at ho'
    cases ho
    cases ho'
    exact hr e e' he he'
  · apply List.Pairwise.imp_of_mem _ ((pairwise_contributed loaderNames hwf).filter _)
    intro n n' hn hn' hr o o' ho ho'
    obtain ⟨hn1, hn2⟩ := List.mem_filter.1 hn
    obtain ⟨hn1', hn2'⟩ := List.mem_filter.1 hn'
    obtain ⟨e, he, hoe⟩ :=
      owner_of_loader env fm (by simpa using hn2) ((mem_keepFirst _ _).1 hn1)
    obtain ⟨e', he', hoe'⟩ :=
      owner_of_loader env fm (by simpa using hn2') ((mem_keepFirst _ _).1 hn1')
    rw [hoe] at ho
    rw [hoe'] at ho'
    cases ho
    cases ho'
    exact hr e e' he he'

theorem skinNames_of_invalid (env : Env) {fm : FactoryMap} (h : fm.m_isValid = false) :
    fm.skinNames env = ((fm.rebuild env).m_skinNames, fm.rebuild env) := by
  simp [skinNames, ensureValid, h]

end FactoryMap

/-! ## C22 -/

/-- C22: two sequences of `insertFactory` calls that are permutations of one
another and use pairwise different factory ids leave the same state, so that
`skinNames()` returns the same list; and, the calls being made on a map with
a sorted table and an index not yet built, that list is the names owned by
manual records followed by the names owned by loader-backed records, each
part in ascending order of the owning factory id. -/
theorem C22_skinNames_order_independent (env : Env) (fm : FactoryMap)
    (calls1 calls2 : List InsertCall) (hperm : calls1.Perm calls2)
    (hids : (calls1.map InsertCall.factoryId).Nodup) :
    fm.insertAll calls1 = fm.insertAll calls2 ∧
      ((fm.insertAll calls1).skinNames env).1 = ((fm.insertAll calls2).skinNames env).1 ∧
      (QMap.WF fm.m_factoryMap → fm.m_isValid = false →
        ∃ manualPart loaderPart,
          ((fm.insertAll calls2).skinNames env).1 = manualPart ++ loaderPart ∧
            (∀ n ∈ manualPart, ∃ e ∈ (fm.insertAll calls2).m_factoryMap,
              QMap.find ((fm.insertAll calls2).skinNames env).2.m_skinMap n = some e.1 ∧
                n ∈ manualNames env e) ∧
            (∀ n ∈ loaderPart, ∃ e ∈ (fm.insertAll calls2).m_factoryMap,
              QMap.find ((fm.insertAll calls2).skinNames env).2.m_skinMap n = some e.1 ∧
                n ∈ loaderNames e) ∧
            manualPart.Pairwise (fun n n' => ∀ o o',
              QMap.find ((fm.insertAll calls2).skinNames env).2.m_skinMap n = some o →
              QMap.find ((fm.insertAll calls2).skinNames env).2.m_skinMap n' = some o' →
              qstringLess o' o = false) ∧
            loaderPart.Pairwise (fun n n' => ∀ o o',
              QMap.find ((fm.insertAll calls2).skinNames env).2.m_skinMap n = some o →
              QMap.find ((fm.insertAll calls2).skinNames env).2.m_skinMap n' = some o' →
              qstringLess o' o = false)) := by
  have heq := insertAll_perm fm hperm hids
  refine ⟨heq, by rw [heq], ?_⟩
  intro hwf hinv
  obtain ⟨hwf', hinv'⟩ := insertAll_sound calls2 ⟨hwf, hinv⟩
  rw [skinNames_of_invalid env hinv']
  exact rebuild_ordered env (fm.insertAll calls2) hwf'

/-- The three sample registrations in two orders give the list `X`, `Y`, `Z`:
`X` and `Y` of the manual factory `m`, then `Z` of the loader `a`. -/
theorem C22_skinNames_order_independent_witness :
    ((({} : FactoryMap).insertAll sampleCalls).skinNames sampleEnv).1 = ["X", "Y", "Z"] ∧
      ((({} : FactoryMap).insertAll sampleCallsPermuted).skinNames sampleEnv).1 =
        ["X", "Y", "Z"] ∧
      ∃ manualPart loaderPart,
        ((({} : FactoryMap).insertAll sampleCallsPermuted).skinNames sampleEnv).1 =
          manualPart ++ loaderPart :=
  have hperm : sampleCalls.Perm sampleCallsPermuted := by decide
  have h := C22_skinNames_order_independent sampleEnv {} sampleCalls sampleCallsPermuted
    hperm (by decide)
  ⟨h.2.1.trans (by decide), by decide,
    match h.2.2 (by decide) rfl with
    | ⟨mp, lp, h1, _⟩ => ⟨mp, lp, h1⟩⟩

end QskSkin
